import Mathlib

/-!
Verification development for the asm-lsp reference-ingestion subsystem
(`src/x86_parser.rs`).

The XML reader (the external quick-xml crate) is modelled as a stream of
events: the repository's code is a fold over `read_event()` results, so the
embedding folds over a `List XmlEvent`.  Hash maps keyed by strings are
modelled as association lists with overwrite-on-insert; the name indices
(`NameTo*Map`) are modelled as functions from keys to optional entries.
Rust `panic!`/`unwrap` failures and `return Err(..)` exits are both modelled
in an `Except PErr` monad, with the two flavours kept distinct.
-/

namespace AsmLsp

/-- A fatal outcome of the Rust code: either an `Err` value returned to the
caller, or a process abort (`panic!` / `unwrap` on `None`/`Err`). -/
inductive PErr where
  | err (msg : String)
  | panic (msg : String)
deriving DecidableEq, Repr

instance {ε α : Type} [DecidableEq ε] [DecidableEq α] : DecidableEq (Except ε α) := fun
  | .error e, .error f => if h : e = f then isTrue (by simp [h]) else isFalse (by simp [h])
  | .error _, .ok _ => isFalse (by simp)
  | .ok _, .error _ => isFalse (by simp)
  | .ok a, .ok b => if h : a = b then isTrue (by simp [h]) else isFalse (by simp [h])

/-- Modelled from the spec: `Arch` (types.rs is not under src/) — one of
x86, x86-64, z80 (§ Glossary), parsed from the `InstructionSet` name
attribute. -/
inductive Arch where
  | x86
  | x86_64
  | z80
deriving DecidableEq, Repr

/-- Modelled from the spec: `Arch::from_str` accepts the three architecture
names used by the corpus. -/
def Arch.from_str (s : String) : Except String Arch :=
  if s = "x86" then .ok .x86
  else if s = "x86-64" then .ok .x86_64
  else if s = "z80" then .ok .z80
  else .error "Unknown architecture"

/-- Modelled from the spec: `Assembler` — GAS, a Go-style mnemonic table, or
z80 syntax (§ Glossary). -/
inductive Assembler where
  | gas
  | go
  | z80
deriving DecidableEq, Repr

/-- Modelled from the spec: `Assembler::from_str`. -/
def Assembler.from_str (s : String) : Except String Assembler :=
  if s = "gas" then .ok .gas
  else if s = "go" then .ok .go
  else if s = "z80" then .ok .z80
  else .error "Unknown assembler"

/-- Modelled from the spec: `MMXMode`, an enumerated capability tag of an
instruction form (§3). -/
inductive MMXMode where
  | fpu
  | mmx
deriving DecidableEq, Repr

/-- Modelled from the spec: `MMXMode::from_str`. -/
def MMXMode.from_str (s : String) : Except String MMXMode :=
  if s = "FPU" then .ok .fpu
  else if s = "MMX" then .ok .mmx
  else .error "Unknown MMX mode"

/-- Modelled from the spec: `XMMMode`, an enumerated capability tag of an
instruction form (§3). -/
inductive XMMMode where
  | sse
  | avx
deriving DecidableEq, Repr

/-- Modelled from the spec: `XMMMode::from_str`. -/
def XMMMode.from_str (s : String) : Except String XMMMode :=
  if s = "SSE" then .ok .sse
  else if s = "AVX" then .ok .avx
  else .error "Unknown XMM mode"

/-- Modelled from the spec: `ISA`, an enumerated instruction-set tag of a
form (e.g. SSE2, MMX; §3). -/
inductive ISA where
  | mmx
  | sse
  | sse2
  | sse3
  | ssse3
  | sse4_1
  | sse4_2
  | avx
  | avx2
deriving DecidableEq, Repr

/-- Modelled from the spec: `ISA::from_str`. -/
def ISA.from_str (s : String) : Except String ISA :=
  if s = "MMX" then .ok .mmx
  else if s = "SSE" then .ok .sse
  else if s = "SSE2" then .ok .sse2
  else if s = "SSE3" then .ok .sse3
  else if s = "SSSE3" then .ok .ssse3
  else if s = "SSE4.1" then .ok .sse4_1
  else if s = "SSE4.2" then .ok .sse4_2
  else if s = "AVX" then .ok .avx
  else if s = "AVX2" then .ok .avx2
  else .error "Unknown ISA"

/-- Modelled from the spec: `OperandType`, the enumerated operand class of an
`Operand` (register-class, immediate, memory; §3).  Variant `k` is the dummy
initialisation value used by the parser. -/
inductive OperandType where
  | k
  | imm8
  | imm16
  | imm32
  | r8
  | r16
  | r32
  | r64
  | mm
  | xmm
  | m
deriving DecidableEq, Repr

/-- Modelled from the spec: `OperandType::from_str`. -/
def OperandType.from_str (s : String) : Except String OperandType :=
  if s = "k" then .ok .k
  else if s = "imm8" then .ok .imm8
  else if s = "imm16" then .ok .imm16
  else if s = "imm32" then .ok .imm32
  else if s = "r8" then .ok .r8
  else if s = "r16" then .ok .r16
  else if s = "r32" then .ok .r32
  else if s = "r64" then .ok .r64
  else if s = "mm" then .ok .mm
  else if s = "xmm" then .ok .xmm
  else if s = "m" then .ok .m
  else .error "Unknown operand type"

/-- Modelled from the spec: `RegisterType`, the enumerated register class
(general-purpose, pointer, flags, …; §3). -/
inductive RegisterType where
  | generalPurpose
  | pointer
  | segment
  | flags
  | control
deriving DecidableEq, Repr

/-- Modelled from the spec: `RegisterType::from_str`. -/
def RegisterType.from_str (s : String) : Except String RegisterType :=
  if s = "General Purpose Register" then .ok .generalPurpose
  else if s = "Pointer Register" then .ok .pointer
  else if s = "Segment Register" then .ok .segment
  else if s = "Flags Register" then .ok .flags
  else if s = "Control Register" then .ok .control
  else .error "Unknown register type"

/-- Modelled from the spec: `RegisterWidth`, the enumerated bit width of a
register (§3). -/
inductive RegisterWidth where
  | w64
  | w32
  | w16
  | w8
deriving DecidableEq, Repr

/-- Modelled from the spec: `RegisterWidth::from_str`. -/
def RegisterWidth.from_str (s : String) : Except String RegisterWidth :=
  if s = "64 bit" then .ok .w64
  else if s = "32 bit" then .ok .w32
  else if s = "16 bit" then .ok .w16
  else if s = "8 bit" then .ok .w8
  else .error "Unknown register width"

/-- Modelled from the spec: `Z80TimingInfo`, one cell of the four-way z80
timing table (§3); parsed from a cycle-count string of one to three
slash-separated numbers. -/
inductive Z80TimingInfo where
  | oneNum (n : Nat)
  | twoNum (n m : Nat)
  | threeNum (n m p : Nat)
deriving DecidableEq, Repr

instance : Inhabited Z80TimingInfo := ⟨.oneNum 0⟩

/-- Parse a decimal numeral; `none` on the empty string or a non-digit. -/
def parseDigits (s : List Char) : Option Nat :=
  s.foldl (fun acc c =>
    match acc with
    | none => none
    | some n => if c.isDigit then some (n * 10 + (c.toNat - 48)) else none)
    (if s.isEmpty then none else some 0)

/-- `str::split` on a non-empty separator, by fuel-bounded recursion on the
character list (the fuel is the list's length, which bounds the number of
pieces). -/
def splitSub (sep : List Char) : Nat → List Char → List (List Char)
  | _, [] => [[]]
  | 0, s => [s]
  | fuel + 1, c :: rest =>
    if sep.isPrefixOf (c :: rest) then
      [] :: splitSub sep fuel ((c :: rest).drop sep.length)
    else
      match splitSub sep fuel rest with
      | [] => [[c]]
      | t :: ts => (c :: t) :: ts

/-- Rust's `str::split` by a literal separator. -/
def rustSplit (sep : String) (s : String) : List String :=
  (splitSub sep.data s.data.length s.data).map String.mk

/-- Modelled from the spec: `Z80TimingInfo::from_str` accepts one to three
slash-separated cycle counts. -/
def Z80TimingInfo.from_str (s : String) : Except String Z80TimingInfo :=
  match (rustSplit "/" s).map (fun part => parseDigits part.data) with
  | [some n] => .ok (.oneNum n)
  | [some n, some m] => .ok (.twoNum n m)
  | [some n, some m, some p] => .ok (.threeNum n m p)
  | _ => .error "Unknown z80 timing"

/-- The four-way z80 timing table of an instruction form
(Z80, Z80+M1, R800, R800+Wait). -/
structure Z80Timing where
  z80 : Z80TimingInfo := default
  z80_plus_m1 : Z80TimingInfo := default
  r800 : Z80TimingInfo := default
  r800_plus_wait : Z80TimingInfo := default
deriving DecidableEq, Repr

instance : Inhabited Z80Timing := ⟨{}⟩

/-- One operand of an instruction form. -/
structure Operand where
  type_ : OperandType
  input : Option Bool
  output : Option Bool
  extended_size : Option Nat
deriving DecidableEq, Repr

/-- One encoding variant of an instruction. -/
structure InstructionForm where
  gas_name : Option String := none
  go_name : Option String := none
  mmx_mode : Option MMXMode := none
  xmm_mode : Option XMMMode := none
  cancelling_inputs : Option Bool := none
  nacl_version : Option Nat := none
  nacl_zero_extends_outputs : Option Bool := none
  isa : Option ISA := none
  operands : List Operand := []
  urls : List String := []
  z80_name : Option String := none
  z80_form : Option String := none
  z80_opcode : Option String := none
  z80_timing : Option Z80Timing := none
deriving DecidableEq, Repr

instance : Inhabited InstructionForm := ⟨{}⟩

/-- One instruction of one architecture. -/
structure Instruction where
  name : String := ""
  alt_names : List String := []
  summary : String := ""
  forms : List InstructionForm := []
  url : Option String := none
  arch : Option Arch := none
deriving DecidableEq, Repr

instance : Inhabited Instruction := ⟨{}⟩

def Instruction.push_form (i : Instruction) (f : InstructionForm) : Instruction :=
  { i with forms := i.forms ++ [f] }

/-- Modelled from the spec: `Instruction::get_primary_names` (types.rs is not
under src/) — the primary/canonical names inserted in the first index pass
(§3) are the canonical `name`. -/
def Instruction.get_primary_names (i : Instruction) : List String :=
  [i.name]

/-- Modelled from the spec: `Instruction::get_associated_names` — the
alternate/alias names inserted in the second index pass (§3) are the
generated `alt_names` case variants. -/
def Instruction.get_associated_names (i : Instruction) : List String :=
  i.alt_names

/-- Flag-bit semantics of a register (§3). -/
structure RegisterBitInfo where
  bit : Nat := 0
  label : String := ""
  description : String := ""
  pae : String := ""
  long_mode : String := ""
deriving DecidableEq, Repr

instance : Inhabited RegisterBitInfo := ⟨{}⟩

/-- One register of one architecture. -/
structure Register where
  name : String := ""
  description : Option String := none
  reg_type : Option RegisterType := none
  width : Option RegisterWidth := none
  flag_info : List RegisterBitInfo := []
  arch : Option Arch := none
  alt_names : List String := []
deriving DecidableEq, Repr

instance : Inhabited Register := ⟨{}⟩

def Register.push_flag (r : Register) (f : RegisterBitInfo) : Register :=
  { r with flag_info := r.flag_info ++ [f] }

/-- Modelled from the spec: `Register::get_associated_names` — every lookup
key contributed by a register: its canonical name plus its `alt_names`
(case variants and XML-declared aliases, §3, §4.2). -/
def Register.get_associated_names (r : Register) : List String :=
  r.name :: r.alt_names

/-- One assembler directive. -/
structure Directive where
  name : String := ""
  signatures : List String := []
  description : String := ""
  deprecated : Bool := false
  url : Option String := none
  assembler : Option Assembler := none
  alt_names : List String := []
deriving DecidableEq, Repr

instance : Inhabited Directive := ⟨{}⟩

/-- Modelled from the spec: `Directive::get_associated_names` — every lookup
key contributed by a directive: its canonical name plus its `alt_names`
(the generated uppercase alias, §3). -/
def Directive.get_associated_names (d : Directive) : List String :=
  d.name :: d.alt_names

/-! ## Name indices

`NameTo*Map` are `HashMap<(target, &str), &entry>` in the source; here they
are functions from keys to optional entries, with `insert` (overwrite) and
`entry(..).or_insert_with(..)` (insert only if absent) as the two update
operations the source uses. -/

abbrev NameToInstructionMap := Arch × String → Option Instruction

abbrev NameToRegisterMap := Arch × String → Option Register

abbrev NameToDirectiveMap := Assembler × String → Option Directive

/-- `HashMap::insert`: bind `k` to `v`, overwriting any earlier binding. -/
def mapInsert {K V : Type} [DecidableEq K] (m : K → Option V) (k : K) (v : V) :
    K → Option V :=
  fun k2 => if k2 = k then some v else m k2

/-- `HashMap::entry(k).or_insert_with(v)`: bind `k` to `v` only when `k` is
not already present. -/
def mapOrInsert {K V : Type} [DecidableEq K] (m : K → Option V) (k : K) (v : V) :
    K → Option V :=
  match m k with
  | some _ => m
  | none => mapInsert m k v

/-- The first loop of `populate_name_to_instruction_map`: insert every
primary name with plain overwrite. -/
def instrPrimaryPass (arch : Arch) (instructions : List Instruction)
    (m : NameToInstructionMap) : NameToInstructionMap :=
  instructions.foldl (fun m instruction =>
    instruction.get_primary_names.foldl
      (fun m name => mapInsert m (arch, name) instruction) m) m

/-- The second loop of `populate_name_to_instruction_map`: insert every
alternate name only when the key is still absent. -/
def instrAliasPass (arch : Arch) (instructions : List Instruction)
    (m : NameToInstructionMap) : NameToInstructionMap :=
  instructions.foldl (fun m instruction =>
    instruction.get_associated_names.foldl
      (fun m name => mapOrInsert m (arch, name) instruction) m) m

/-- `populate_name_to_instruction_map`: primary names are inserted first
with plain overwrite; alternate names are then inserted only when the key
is still absent. -/
def populate_name_to_instruction_map (arch : Arch) (instructions : List Instruction)
    (names_to_instructions : NameToInstructionMap) : NameToInstructionMap :=
  instrAliasPass arch instructions (instrPrimaryPass arch instructions names_to_instructions)

/-- `populate_name_to_register_map`: one pass inserting every associated
name with plain overwrite. -/
def populate_name_to_register_map (arch : Arch) (registers : List Register)
    (names_to_registers : NameToRegisterMap) : NameToRegisterMap :=
  registers.foldl (fun m register =>
    register.get_associated_names.foldl
      (fun m name => mapInsert m (arch, name) register) m)
    names_to_registers

/-- `populate_name_to_directive_map`: one pass inserting every associated
name with plain overwrite. -/
def populate_name_to_directive_map (assem : Assembler) (directives : List Directive)
    (names_to_directives : NameToDirectiveMap) : NameToDirectiveMap :=
  directives.foldl (fun m directive =>
    directive.get_associated_names.foldl
      (fun m name => mapInsert m (assem, name) directive) m)
    names_to_directives

/-- The last register of a list whose associated names contain `n` — the
winner of a single-pass overwriting insertion. -/
def lastHolderReg (n : String) : List Register → Option Register
  | [] => none
  | r :: rest =>
    match lastHolderReg n rest with
    | some x => some x
    | none => if n ∈ r.get_associated_names then some r else none

/-- The last directive of a list whose associated names contain `n` — the
winner of a single-pass overwriting insertion. -/
def lastHolderDir (n : String) : List Directive → Option Directive
  | [] => none
  | d :: rest =>
    match lastHolderDir n rest with
    | some x => some x
    | none => if n ∈ d.get_associated_names then some d else none

/-! ## XML events

The quick-xml reader (an external collaborator) feeds the parser a stream of
events; attribute values are the raw attribute text.  `Eof` is the end of the
list; events other than start/empty/end fall into the parsers' catch-all
arms and are modelled by `other`. -/

/-- One `quick_xml::events::Event` as consumed by the parsers. -/
inductive XmlEvent where
  | start (name : String) (attrs : List (String × String))
  | empty (name : String) (attrs : List (String × String))
  | stop (name : String)
  | other
deriving DecidableEq, Repr

/-! ## ASCII case mapping

`str::to_uppercase` / `str::to_lowercase` restricted to ASCII (the corpus
names are ASCII). -/

def charUpper (c : Char) : Char :=
  if 97 ≤ c.toNat ∧ c.toNat ≤ 122 then Char.ofNat (c.toNat - 32) else c

def charLower (c : Char) : Char :=
  if 65 ≤ c.toNat ∧ c.toNat ≤ 90 then Char.ofNat (c.toNat + 32) else c

def strUpper (s : String) : String := ⟨s.data.map charUpper⟩

def strLower (s : String) : String := ⟨s.data.map charLower⟩

/-- The first UTF-8 byte of a string (`value.as_ref().first().copied()`). -/
def firstByte (s : String) : Option Nat :=
  s.toUTF8.data.toList.head?.map UInt8.toNat

/-! ## String-keyed hash maps

`HashMap<String, V>` modelled as an association list: `insert` overwrites in
place (or appends a fresh binding), `into_values` is the value column. -/

abbrev AssocMap (V : Type) := List (String × V)

def AssocMap.insert {V : Type} (m : AssocMap V) (k : String) (v : V) : AssocMap V :=
  if m.any (fun p => p.1 = k) then
    m.map (fun p => if p.1 = k then (k, v) else p)
  else
    m ++ [(k, v)]

def AssocMap.find {V : Type} (m : AssocMap V) (k : String) : Option V :=
  (m.find? (fun p => p.1 = k)).map (fun p => p.2)

def AssocMap.values {V : Type} (m : AssocMap V) : List V :=
  m.map (fun p => p.2)

/-- The key column of the map. -/
def AssocMap.keys {V : Type} (m : AssocMap V) : List String :=
  m.map (fun p => p.1)

/-- The name-keyed collection invariant: every binding's key is its value's
name (per the key function `kf`), and the keys are pairwise distinct. -/
def AssocMap.wf {V : Type} (kf : V → String) (m : AssocMap V) : Prop :=
  (∀ p ∈ m, p.1 = kf p.2) ∧ m.keys.Nodup

/-- `HashMap::get_mut(k)` followed by a field update: rewrite the bound value
in place when the key is present, do nothing otherwise. -/
def AssocMap.adjust {V : Type} (m : AssocMap V) (k : String) (f : V → V) : AssocMap V :=
  m.map (fun p => if p.1 = k then (p.1, f p.2) else p)

/-! ## populate_instructions: the event loop -/

/-- The mutable state of `populate_instructions`' loop. -/
structure InstrState where
  instructions_map : AssocMap Instruction := []
  curr_instruction : Instruction := {}
  curr_instruction_form : InstructionForm := {}
  arch : Option Arch := none
deriving DecidableEq, Repr

/-- Attribute loop of the `InstructionSet` start element: the `name`
attribute sets the architecture (unrecognised names give `none`). -/
def applyInstructionSetAttr (arch : Option Arch) (kv : String × String) : Option Arch :=
  if kv.1 = "name" then (Arch.from_str kv.2).toOption else arch

/-- Attribute loop of the `Instruction` start element. -/
def applyInstructionAttr (i : Instruction) (kv : String × String) : Instruction :=
  if kv.1 = "name" then
    { i with alt_names := i.alt_names ++ [strUpper kv.2, strLower kv.2], name := kv.2 }
  else if kv.1 = "summary" then
    { i with summary := kv.2 }
  else i

/-- An uppercase hexadecimal digit. -/
def hexDigit (n : Nat) : Char :=
  if n < 10 then Char.ofNat (48 + n) else Char.ofNat (55 + n)

/-- `url_escape::encode_www_form_urlencoded` on one character: alphanumerics
and `*-._` are kept, a space becomes a plus sign, everything else is
percent-encoded per UTF-8 byte. -/
def encodeWwwFormChar (c : Char) : String :=
  if c.isAlphanum ∨ c = '*' ∨ c = '-' ∨ c = '.' ∨ c = '_' then String.singleton c
  else if c = ' ' then "+"
  else String.join (((String.singleton c).toUTF8.data.toList).map (fun b =>
    "%" ++ String.mk [hexDigit (b.toNat / 16), hexDigit (b.toNat % 16)]))

/-- `url_escape::encode_www_form_urlencoded`. -/
def encodeWwwForm (s : String) : String :=
  String.join (s.data.map encodeWwwFormChar)

/-- The per-form z80 documentation URL generated from the `form` attribute. -/
def z80FormUrl (v : String) : String :=
  "https://www.zilog.com/docs/z80/z80cpu_um.pdf#" ++ encodeWwwForm v

/-- Attribute loop of the `InstructionForm` start element; unparseable
`cancelling-inputs` / `nacl-zero-extends-outputs` booleans and unknown
`mmx-mode` / `xmm-mode` tags return `Err`. -/
def applyInstructionFormAttr (f : InstructionForm) (kv : String × String) :
    Except PErr InstructionForm :=
  if kv.1 = "gas-name" then .ok { f with gas_name := some kv.2 }
  else if kv.1 = "go-name" then .ok { f with go_name := some kv.2 }
  else if kv.1 = "mmx-mode" then
    match MMXMode.from_str kv.2 with
    | .ok m => .ok { f with mmx_mode := some m }
    | .error e => .error (.err e)
  else if kv.1 = "xmm-mode" then
    match XMMMode.from_str kv.2 with
    | .ok m => .ok { f with xmm_mode := some m }
    | .error e => .error (.err e)
  else if kv.1 = "cancelling-inputs" then
    if kv.2 = "true" then .ok { f with cancelling_inputs := some true }
    else if kv.2 = "false" then .ok { f with cancelling_inputs := some false }
    else .error (.err ("Unknown value for XML attribute cancelling inputs: " ++ kv.2))
  else if kv.1 = "nacl-version" then .ok { f with nacl_version := firstByte kv.2 }
  else if kv.1 = "nacl-zero-extends-outputs" then
    if kv.2 = "true" then .ok { f with nacl_zero_extends_outputs := some true }
    else if kv.2 = "false" then .ok { f with nacl_zero_extends_outputs := some false }
    else .error (.err ("Unknown value for XML attribute nacl-zero-extends-outputs: " ++ kv.2))
  else if kv.1 = "z80name" then .ok { f with z80_name := some kv.2 }
  else if kv.1 = "form" then
    .ok { f with urls := f.urls ++ [z80FormUrl kv.2], z80_form := some kv.2 }
  else .ok f

/-- Attribute loop of an `Encoding` start element: each `byte` attribute
appends its value plus a space to the accumulated opcode string. -/
def applyEncodingAttr (f : InstructionForm) (kv : String × String) : InstructionForm :=
  if kv.1 = "byte" then
    let disp_code := kv.2 ++ " "
    match f.z80_opcode with
    | some opcodes => { f with z80_opcode := some (opcodes ++ disp_code) }
    | none => { f with z80_opcode := some disp_code }
  else f

/-- An `Encoding` start element applied to the current form. -/
def applyEncoding (f : InstructionForm) (attrs : List (String × String)) : InstructionForm :=
  attrs.foldl applyEncodingAttr f

/-- Attribute loop of an `ISA` empty element: an unknown `id` tag panics. -/
def applyIsaAttr (f : InstructionForm) (kv : String × String) :
    Except PErr InstructionForm :=
  if kv.1 = "id" then
    match ISA.from_str kv.2 with
    | .ok i => .ok { f with isa := some i }
    | .error _ => .error (.panic ("Unexpected ISA variant - " ++ kv.2))
  else .ok f

/-- Parse a `usize` (`str::parse::<usize>` on a 64-bit target): optional
leading plus sign, then decimal digits, within `usize` range. -/
def parseUsize (s : String) : Option Nat :=
  let digits := if s.startsWith "+" then (s.drop 1).data else s.data
  match parseDigits digits with
  | some n => if n < 2 ^ 64 then some n else none
  | none => none

/-- Parse a `u32` (`str::parse::<u32>`). -/
def parseU32 (s : String) : Option Nat :=
  let digits := if s.startsWith "+" then (s.drop 1).data else s.data
  match parseDigits digits with
  | some n => if n < 2 ^ 32 then some n else none
  | none => none

/-- The scratch state of an `Operand` empty element's attribute loop. -/
structure OperandScratch where
  type_ : OperandType := .k
  extended_size : Option Nat := none
  input : Option Bool := none
  output : Option Bool := none

/-- Attribute loop of an `Operand` empty element: unknown operand types and
unparseable booleans return `Err`; an unparseable `extended-size` is an
`Err` as well (propagated from `.parse::<usize>()?`). -/
def applyOperandAttr (o : OperandScratch) (kv : String × String) :
    Except PErr OperandScratch :=
  if kv.1 = "type" then
    match OperandType.from_str kv.2 with
    | .ok t => .ok { o with type_ := t }
    | .error _ => .error (.err ("Unknown value for operand type -- Variant: " ++ kv.2))
  else if kv.1 = "input" then
    if kv.2 = "true" then .ok { o with input := some true }
    else if kv.2 = "false" then .ok { o with input := some false }
    else .error (.err "Unknown value for operand type")
  else if kv.1 = "output" then
    if kv.2 = "true" then .ok { o with output := some true }
    else if kv.2 = "false" then .ok { o with output := some false }
    else .error (.err "Unknown value for operand type")
  else if kv.1 = "extended-size" then
    match parseUsize kv.2 with
    | some n => .ok { o with extended_size := some n }
    | none => .error (.err "invalid digit found in string")
  else .ok o

/-- Which of the four timing fields a timing element sets. -/
inductive TimingField where
  | z80
  | z80_plus_m1
  | r800
  | r800_plus_wait
deriving DecidableEq, Repr

/-- Set one field of a timing table. -/
def Z80Timing.setField (t : Z80Timing) (fld : TimingField) (v : Z80TimingInfo) : Z80Timing :=
  match fld with
  | .z80 => { t with z80 := v }
  | .z80_plus_m1 => { t with z80_plus_m1 := v }
  | .r800 => { t with r800 := v }
  | .r800_plus_wait => { t with r800_plus_wait := v }

/-- Attribute loop shared by the four timing empty elements: a `value`
attribute is parsed (an unparseable value returns `Err`) and stored in the
element's own field; the other fields are defaulted only when no timing
record exists yet. -/
def applyTimingAttr (fld : TimingField) (f : InstructionForm) (kv : String × String) :
    Except PErr InstructionForm :=
  if kv.1 = "value" then
    match Z80TimingInfo.from_str kv.2 with
    | .ok timing =>
      match f.z80_timing with
      | some timing_entry =>
        .ok { f with z80_timing := some (timing_entry.setField fld timing) }
      | none =>
        .ok { f with z80_timing := some (Z80Timing.setField {} fld timing) }
    | .error e => .error (.err e)
  else .ok f

/-- One iteration of `populate_instructions`' event loop. -/
def stepInstruction (s : InstrState) (e : XmlEvent) : Except PErr InstrState :=
  match e with
  | .start "InstructionSet" attrs =>
    .ok { s with arch := attrs.foldl applyInstructionSetAttr s.arch }
  | .start "Instruction" attrs =>
    .ok { s with curr_instruction :=
      attrs.foldl applyInstructionAttr { arch := s.arch } }
  | .start "InstructionForm" attrs => do
    let f ← attrs.foldlM applyInstructionFormAttr {}
    .ok { s with curr_instruction_form := f }
  | .start "Encoding" attrs =>
    .ok { s with curr_instruction_form := applyEncoding s.curr_instruction_form attrs }
  | .empty "ISA" attrs => do
    let f ← attrs.foldlM applyIsaAttr s.curr_instruction_form
    .ok { s with curr_instruction_form := f }
  | .empty "Operand" attrs => do
    let o ← attrs.foldlM applyOperandAttr {}
    .ok { s with curr_instruction_form :=
      { s.curr_instruction_form with operands :=
          s.curr_instruction_form.operands ++
            [{ type_ := o.type_, input := o.input, output := o.output,
               extended_size := o.extended_size }] } }
  | .empty "TimingZ80" attrs => do
    let f ← attrs.foldlM (applyTimingAttr .z80) s.curr_instruction_form
    .ok { s with curr_instruction_form := f }
  | .empty "TimingZ80M1" attrs => do
    let f ← attrs.foldlM (applyTimingAttr .z80_plus_m1) s.curr_instruction_form
    .ok { s with curr_instruction_form := f }
  | .empty "TimingR800" attrs => do
    let f ← attrs.foldlM (applyTimingAttr .r800) s.curr_instruction_form
    .ok { s with curr_instruction_form := f }
  | .empty "TimingR800Wait" attrs => do
    let f ← attrs.foldlM (applyTimingAttr .r800_plus_wait) s.curr_instruction_form
    .ok { s with curr_instruction_form := f }
  | .stop "Instruction" =>
    .ok { s with instructions_map :=
      s.instructions_map.insert s.curr_instruction.name s.curr_instruction }
  | .stop "InstructionForm" =>
    .ok { s with curr_instruction :=
      s.curr_instruction.push_form s.curr_instruction_form }
  | _ => .ok s

/-- The whole event loop of `populate_instructions`. -/
def runInstrEvents (events : List XmlEvent) (s : InstrState) : Except PErr InstrState :=
  events.foldlM stepInstruction s

/-! ## The supplementary x86 documentation step

`body.split("<td>").skip(1).step_by(2)` and the concrete regex
`<a href='\/x86\/(.*?)'>(.*?)<\/a>.*<\/td>` (leftmost match, lazy groups,
`.` not matching a newline). -/

/-- `Iterator::step_by(2)`: every second element, starting with the first. -/
def stepEven {α : Type} : List α → List α
  | [] => []
  | [a] => [a]
  | a :: _ :: rest => a :: stepEven rest

/-- The table-cell iterator `body.split("<td>").skip(1).step_by(2)`. -/
def tdCells (body : String) : List String :=
  stepEven ((rustSplit "<td>" body).drop 1)

/-- Match a lazy group `(.*?)` followed by the literal `stop`: the shortest
newline-free prefix after which `stop` occurs; returns the group and the
rest after `stop`. -/
def lazyTo (stop : List Char) : List Char → Option (List Char × List Char)
  | [] => if stop.isPrefixOf ([] : List Char) then some ([], []) else none
  | c :: rest =>
    if stop.isPrefixOf (c :: rest) then some ([], (c :: rest).drop stop.length)
    else if c = '\n' then none
    else (lazyTo stop rest).map fun p => (c :: p.1, p.2)

/-- Match `.*` followed by the literal `stop`: `stop` occurs after some
newline-free prefix. -/
def dotStarThen (stop : List Char) : List Char → Bool
  | [] => stop.isPrefixOf ([] : List Char)
  | c :: rest =>
    if stop.isPrefixOf (c :: rest) then true
    else if c = '\n' then false
    else dotStarThen stop rest

/-- Match the link regex at the start of `s`, returning the two capture
groups (url suffix, instruction name). -/
def matchLinkAt (s : List Char) : Option (String × String) :=
  let lit := "<a href='/x86/".data
  if lit.isPrefixOf s then
    match lazyTo "'>".data (s.drop lit.length) with
    | some (g1, r1) =>
      match lazyTo "</a>".data r1 with
      | some (g2, r2) =>
        if dotStarThen "</td>".data r2 then some (String.mk g1, String.mk g2)
        else none
      | none => none
    | none => none
  else none

/-- Leftmost match of the link regex (`Regex::captures`). -/
def reCapturesAux : List Char → Option (String × String)
  | [] => matchLinkAt []
  | c :: rest =>
    match matchLinkAt (c :: rest) with
    | some r => some r
    | none => reCapturesAux rest

/-- `re.captures(line)` for the concrete link regex, projected to the two
capture groups. -/
def reCaptures (line : String) : Option (String × String) :=
  reCapturesAux line.data

/-- The production x86 documentation URL (`get_x86_docs_url`). -/
def x86DocsUrl : String := "https://www.felixcloutier.com/x86/"

/-- The environment `get_docs_body` interacts with: CLI flag, resolved cache
directory (the outcome of `get_cache_dir`), cache-file existence, and the
outcomes of the network fetch and of the cache read. -/
structure DocsEnv where
  cache_refresh : Bool
  cache_dir : Option String
  cache_file_exists : Bool
  web_fetch : Except String String
  cache_read : Except String String

/-- What `get_docs_body` produced: the returned body plus its filesystem
effects (cache written; cache-file removal attempted). -/
structure DocsResult where
  body : Option String
  wrote_cache : Bool
  removed_cache_attempt : Bool
deriving DecidableEq, Repr

/-- The cache file path (`<cache dir>/x86_instr_docs.html`), when a cache
directory was resolved. -/
def docsCachePath (env : DocsEnv) : Option String :=
  env.cache_dir.map (fun d => d ++ "/x86_instr_docs.html")

/-- The body selection step of `get_docs_body`, before validation: fetch from
the web (writing the cache) when `--cache-refresh` is set or no cache file
exists, otherwise read the cache; a failure of either yields no body.
Returns the selected body and whether the cache was written. -/
def docsBodyRaw (env : DocsEnv) : Option String × Bool :=
  let path := docsCachePath env
  let cache_exists := path.isSome && env.cache_file_exists
  if env.cache_refresh || !cache_exists then
    match env.web_fetch with
    | .ok docs => (some docs, path.isSome)
    | .error _ => (none, false)
  else
    match path with
    | some _ =>
      match env.cache_read with
      | .ok docs => (some docs, false)
      | .error _ => (none, false)
    | none => (none, false)

/-- `get_docs_body`: select a body, then validate it by the table-cell
iterator; an empty iterator invalidates the body, attempts to remove the
cache file (when a path was resolved) and returns no body. -/
def get_docs_body (env : DocsEnv) : DocsResult :=
  let path := docsCachePath env
  match docsBodyRaw env with
  | (none, w) => { body := none, wrote_cache := w, removed_cache_attempt := false }
  | (some body, w) =>
    if (tdCells body).isEmpty then
      { body := none, wrote_cache := w, removed_cache_attempt := path.isSome }
    else
      { body := some body, wrote_cache := w, removed_cache_attempt := false }

/-- The URL-attachment loop of `populate_instructions`: for each table cell,
`re.captures(line).unwrap()` (a panic when the cell does not match), then
attach the URL to the instruction of that name when present. -/
def attachUrls (m : AssocMap Instruction) (base : String) (lines : List String) :
    Except PErr (AssocMap Instruction) :=
  lines.foldlM (fun m line =>
    match reCaptures line with
    | none => .error (.panic "called Option unwrap on a None value")
    | some caps =>
      .ok (m.adjust caps.2 (fun i => { i with url := some (base ++ caps.1) }))) m

/-- `populate_instructions`: the event loop, then (for x86/x86-64 only) the
supplementary URL step over `get_docs_body`'s outcome, then the value
column of the name-keyed collection. -/
def populate_instructions (events : List XmlEvent) (env : DocsEnv) :
    Except PErr (List Instruction) := do
  let s ← runInstrEvents events {}
  match s.arch with
  | some .x86 | some .x86_64 => do
    let m ← attachUrls s.instructions_map x86DocsUrl
      (tdCells ((get_docs_body env).body.getD ""))
    .ok m.values
  | _ => .ok s.instructions_map.values

/-! ## get_cache_dir -/

/-- The environment `get_cache_dir` interacts with: the `ASM_LSP_CACHE_DIR`
variable, the directory-existence predicate, the home directory, and the
outcome of `fs::create_dir_all`. -/
structure CacheEnv where
  env_var : Option String
  is_dir : String → Bool
  home : Option String
  create_dir_ok : Bool

/-- The home-based fallback of `get_cache_dir`: `<home>/.cache/asm-lsp`,
created if needed; errors when no home directory is found or creation
fails. -/
def cacheFallback (env : CacheEnv) : Except String String :=
  match env.home with
  | none => .error "Home directory not found"
  | some h =>
    if env.create_dir_ok then .ok (h ++ "/.cache/asm-lsp")
    else .error "failed to create the cache directory"

/-- `get_cache_dir`: honor `ASM_LSP_CACHE_DIR` when it names an existing
directory, otherwise fall back to the home-based default. -/
def get_cache_dir (env : CacheEnv) : Except String String :=
  match env.env_var with
  | some p => if env.is_dir p then .ok p else cacheFallback env
  | none => cacheFallback env

/-! ## populate_registers: the event loop -/

/-- The mutable state of `populate_registers`' loop. -/
structure RegState where
  registers_map : AssocMap Register := []
  curr_register : Register := {}
  curr_bit_flag : RegisterBitInfo := {}
  arch : Option Arch := none
deriving DecidableEq, Repr

/-- Attribute loop of the `Register` start element: unknown `type` / `width`
tags are silently mapped to `none`. -/
def applyRegisterAttr (r : Register) (kv : String × String) : Register :=
  if kv.1 = "name" then
    { r with alt_names := r.alt_names ++ [strUpper kv.2, strLower kv.2], name := kv.2 }
  else if kv.1 = "altname" then
    { r with alt_names := r.alt_names ++ [kv.2] }
  else if kv.1 = "description" then
    { r with description := some kv.2 }
  else if kv.1 = "type" then
    { r with reg_type := (RegisterType.from_str kv.2).toOption }
  else if kv.1 = "width" then
    { r with width := (RegisterWidth.from_str kv.2).toOption }
  else r

/-- Attribute loop of a `Flag` start element: an unparseable `bit` number
panics (`parse::<u32>().unwrap()`). -/
def applyFlagAttr (f : RegisterBitInfo) (kv : String × String) :
    Except PErr RegisterBitInfo :=
  if kv.1 = "bit" then
    match parseU32 kv.2 with
    | some n => .ok { f with bit := n }
    | none => .error (.panic "invalid digit found in string")
  else if kv.1 = "label" then .ok { f with label := kv.2 }
  else if kv.1 = "description" then .ok { f with description := kv.2 }
  else if kv.1 = "pae" then .ok { f with pae := kv.2 }
  else if kv.1 = "longmode" then .ok { f with long_mode := kv.2 }
  else .ok f

/-- One iteration of `populate_registers`' event loop. -/
def stepRegister (s : RegState) (e : XmlEvent) : Except PErr RegState :=
  match e with
  | .start "InstructionSet" attrs =>
    .ok { s with arch := attrs.foldl applyInstructionSetAttr s.arch }
  | .start "Register" attrs =>
    .ok { s with curr_register := attrs.foldl applyRegisterAttr { arch := s.arch } }
  | .start "Flags" _ => .ok s
  | .start "Flag" attrs => do
    let f ← attrs.foldlM applyFlagAttr {}
    .ok { s with curr_bit_flag := f }
  | .stop "Register" =>
    .ok { s with registers_map :=
      s.registers_map.insert s.curr_register.name s.curr_register }
  | .stop "Flag" =>
    .ok { s with curr_register := s.curr_register.push_flag s.curr_bit_flag }
  | _ => .ok s

/-- `populate_registers`: the event loop, then the value column of the
name-keyed collection. -/
def populate_registers (events : List XmlEvent) : Except PErr (List Register) := do
  let s ← events.foldlM stepRegister {}
  .ok s.registers_map.values

/-! ## populate_directives: the event loop -/

/-- Parse a hexadecimal numeral. -/
def parseHexDigits (s : List Char) : Option Nat :=
  s.foldl (fun acc c =>
    match acc with
    | none => none
    | some n =>
      if c.isDigit then some (n * 16 + (c.toNat - 48))
      else if 97 ≤ c.toNat ∧ c.toNat ≤ 102 then some (n * 16 + (c.toNat - 87))
      else if 65 ≤ c.toNat ∧ c.toNat ≤ 70 then some (n * 16 + (c.toNat - 55))
      else none)
    (if s.isEmpty then none else some 0)

/-- The character a named or numeric XML entity stands for. -/
def entityValue (name : List Char) : Option Char :=
  if name = "amp".data then some '&'
  else if name = "lt".data then some '<'
  else if name = "gt".data then some '>'
  else if name = "quot".data then some '"'
  else if name = "apos".data then some (Char.ofNat 39)
  else
    match name with
    | '#' :: 'x' :: hex =>
      match parseHexDigits hex with
      | some n => if n.isValidChar then some (Char.ofNat n) else none
      | none => none
    | '#' :: dec =>
      match parseDigits dec with
      | some n => if n.isValidChar then some (Char.ofNat n) else none
      | none => none
    | _ => none

/-- The scanning state of `unescape`: the decoded output so far and, when
inside a `&...;` entity, the entity name read so far. -/
structure UnescSt where
  acc : List Char := []
  ent : Option (List Char) := none

/-- One character of `unescape`'s scan: an ampersand opens an entity, a
semicolon closes and decodes it (failing on an unknown entity), any other
character is copied through or accumulated into the entity name. -/
def unescChar (st : Option UnescSt) (c : Char) : Option UnescSt :=
  match st with
  | none => none
  | some st =>
    match st.ent with
    | none =>
      if c = '&' then some { st with ent := some [] }
      else some { st with acc := st.acc ++ [c] }
    | some name =>
      if c = ';' then
        match entityValue name with
        | some ch => some { acc := st.acc ++ [ch], ent := none }
        | none => none
      else some { st with ent := some (name ++ [c]) }

/-- `quick_xml::escape::unescape`: decode XML entities; `none` on a dangling
ampersand or an unknown entity. -/
def xmlUnescape (s : String) : Option String :=
  match s.data.foldl unescChar (some {}) with
  | some st =>
    match st.ent with
    | none => some (String.mk st.acc)
    | some _ => none
  | none => none

/-- The mutable state of `populate_directives`' loop. -/
structure DirState where
  directives_map : AssocMap Directive := []
  curr_directive : Directive := {}
  assembler : Option Assembler := none
deriving DecidableEq, Repr

/-- Attribute loop of the `Assembler` start element. -/
def applyAssemblerAttr (a : Option Assembler) (kv : String × String) : Option Assembler :=
  if kv.1 = "name" then (Assembler.from_str kv.2).toOption else a

/-- Attribute loop of the `Directive` start element: the name also adds an
uppercase alias; an invalid `md_description` entity or an unparseable
`deprecated` boolean panics (`unwrap`). -/
def applyDirectiveAttr (d : Directive) (kv : String × String) : Except PErr Directive :=
  if kv.1 = "name" then
    .ok { d with alt_names := d.alt_names ++ [strUpper kv.2], name := kv.2 }
  else if kv.1 = "md_description" then
    match xmlUnescape kv.2 with
    | some desc => .ok { d with description := desc }
    | none => .error (.panic "unescape failed")
  else if kv.1 = "deprecated" then
    if kv.2 = "true" then .ok { d with deprecated := true }
    else if kv.2 = "false" then .ok { d with deprecated := false }
    else .error (.panic "provided string was not true or false")
  else if kv.1 = "url_fragment" then
    .ok { d with url := some ("https://sourceware.org/binutils/docs-2.41/as/" ++ kv.2 ++ ".html") }
  else .ok d

/-- Attribute loop of a `Signature` start element. -/
def applySignatureAttr (d : Directive) (kv : String × String) : Except PErr Directive :=
  if kv.1 = "sig" then
    match xmlUnescape kv.2 with
    | some sig => .ok { d with signatures := d.signatures ++ [sig] }
    | none => .error (.panic "unescape failed")
  else .ok d

/-- One iteration of `populate_directives`' event loop. -/
def stepDirective (s : DirState) (e : XmlEvent) : Except PErr DirState :=
  match e with
  | .start "Assembler" attrs =>
    .ok { s with assembler := attrs.foldl applyAssemblerAttr s.assembler }
  | .start "Directive" attrs => do
    let d ← attrs.foldlM applyDirectiveAttr { assembler := s.assembler }
    .ok { s with curr_directive := d }
  | .start "Signatures" _ => .ok s
  | .start "Signature" attrs => do
    let d ← attrs.foldlM applySignatureAttr s.curr_directive
    .ok { s with curr_directive := d }
  | .stop "Directive" =>
    .ok { s with directives_map :=
      s.directives_map.insert s.curr_directive.name s.curr_directive }
  | _ => .ok s

/-- `populate_directives`: the event loop, then the value column of the
name-keyed collection. -/
def populate_directives (events : List XmlEvent) : Except PErr (List Directive) := do
  let s ← events.foldlM stepDirective {}
  .ok s.directives_map.values

/-! ## Concrete inputs used by witnesses and counterexamples -/

/-- A primary holder of the name `mov`. -/
def c1A : Instruction :=
  { name := "mov", alt_names := ["MOV", "mov"], summary := "move" }

/-- An instruction for which `mov` is only an alternate name. -/
def c1B : Instruction :=
  { name := "ld", alt_names := ["LD", "ld", "mov"], summary := "load" }

/-- A register whose primary name is `pc`. -/
def c2A : Register :=
  { name := "pc", alt_names := ["PC", "pc"] }

/-- A register for which `pc` is only an alias. -/
def c2B : Register :=
  { name := "ip", alt_names := ["IP", "ip", "pc"] }

/-- A directive whose primary name is `.align`. -/
def c2D1 : Directive :=
  { name := ".align", alt_names := [".ALIGN"] }

/-- A directive for which `.align` is only an alias. -/
def c2D2 : Directive :=
  { name := ".balign", alt_names := [".BALIGN", ".align"] }

/-- The three case forms of a name: original, all-uppercase, all-lowercase. -/
def caseVariants (s : String) : List String :=
  [s, strUpper s, strLower s]

/-- An event stream declaring two z80 instructions whose names differ only
by case. -/
def c3Events : List XmlEvent :=
  [.start "InstructionSet" [("name", "z80")],
   .start "Instruction" [("name", "mov")],
   .stop "Instruction",
   .start "Instruction" [("name", "MOV")],
   .stop "Instruction",
   .stop "InstructionSet"]

/-- A docs environment with no cache directory, no cache file and a failing
network fetch. -/
def offlineEnv : DocsEnv :=
  { cache_refresh := false, cache_dir := none, cache_file_exists := false,
    web_fetch := .error "offline", cache_read := .error "no cache" }

/-- The instruction `c3Events` builds from its first element. -/
def c3MovLower : Instruction :=
  { name := "mov", alt_names := ["MOV", "mov"], arch := some .z80 }

/-- The instruction `c3Events` builds from its second element. -/
def c3MovUpper : Instruction :=
  { name := "MOV", alt_names := ["MOV", "mov"], arch := some .z80 }

/-- The `byte` attribute values of one `Encoding` element, in document
order. -/
def encodingBytes (attrs : List (String × String)) : List String :=
  (attrs.filter (fun kv => kv.1 = "byte")).map (fun kv => kv.2)

/-- Fold a list of byte declarations into an opcode accumulator the way the
`Encoding` handler does: each byte appends `value ++ " "`. -/
def appendBytes (o : Option String) (bs : List String) : Option String :=
  bs.foldl (fun o b =>
    match o with
    | some p => some (p ++ (b ++ " "))
    | none => some (b ++ " ")) o

/-- The concatenation of byte declarations, each followed by a space. -/
def joinBytes : List String → String
  | [] => ""
  | b :: bs => b ++ " " ++ joinBytes bs

/-- The opcode string an encoding byte list produces: none when there are no
bytes, otherwise their space-separated concatenation in document order. -/
def opcodeOfBytes (bs : List String) : Option String :=
  if bs.isEmpty then none else some (joinBytes bs)

/-- The timing empty element that sets the given timing field, carrying one
`value` attribute. -/
def timingEvt (fld : TimingField) (v : String) : XmlEvent :=
  match fld with
  | .z80 => .empty "TimingZ80" [("value", v)]
  | .z80_plus_m1 => .empty "TimingZ80M1" [("value", v)]
  | .r800 => .empty "TimingR800" [("value", v)]
  | .r800_plus_wait => .empty "TimingR800Wait" [("value", v)]

/-- The parsed timing value of a cycle-count string (defaulting on a parse
failure, which the theorems exclude by hypothesis). -/
def timingVal (v : String) : Z80TimingInfo :=
  match Z80TimingInfo.from_str v with
  | .ok t => t
  | .error _ => default

/-- Fold a list of timing declarations over an optional timing record the
way the four timing handlers do: each declaration sets its own field,
defaulting the others only when no record exists yet. -/
def foldTimings (o : Option Z80Timing) (tl : List (TimingField × String)) :
    Option Z80Timing :=
  tl.foldl (fun o p => some ((o.getD {}).setField p.1 (timingVal p.2))) o

/-- A mixed-case instruction with its generated case-variant aliases. -/
def c3WInstr : Instruction :=
  { name := "Mov", alt_names := ["MOV", "mov"] }

/-- A mixed-case register with its generated case-variant aliases. -/
def c3WReg : Register :=
  { name := "Rax", alt_names := ["RAX", "rax"] }

/-- An event stream committing two `Instruction` elements under the same
name `nop`. -/
def c5Events : List XmlEvent :=
  [.start "Instruction" [("name", "nop")],
   .stop "Instruction",
   .start "Instruction" [("name", "nop"), ("summary", "wait")],
   .stop "Instruction"]

/-- The instruction the first `nop` element accumulates. -/
def c5I1 : Instruction :=
  { name := "nop", alt_names := ["NOP", "nop"] }

/-- The instruction the second (later-closing) `nop` element accumulates. -/
def c5I2 : Instruction :=
  { name := "nop", alt_names := ["NOP", "nop"], summary := "wait" }

/-- An event stream declaring a register whose `type` and `width` attributes
carry unrecognized tags. -/
def c7Events : List XmlEvent :=
  [.start "Register" [("name", "r0"), ("type", "Bogus Register"), ("width", "128 bit")],
   .stop "Register"]

/-- The register `c7Events` commits: the malformed `type` and `width` are
silently dropped to `none`. -/
def c7Reg : Register :=
  { name := "r0", alt_names := ["R0", "r0"] }

/-- A docs environment whose fetch succeeds with a body that has one table
cell not matching the link regex. -/
def c4Env : DocsEnv :=
  { cache_refresh := false, cache_dir := none, cache_file_exists := false,
    web_fetch := .ok "<td>garbage</td>", cache_read := .error "no cache" }

/-- A docs environment with a resolved cache directory whose fetched body
has no table cell. -/
def c8EnvInvalid : DocsEnv :=
  { cache_refresh := false, cache_dir := some "/cache", cache_file_exists := false,
    web_fetch := .ok "no cells here", cache_read := .error "unused" }

/-- A docs environment whose cached body has a table cell. -/
def c8EnvValid : DocsEnv :=
  { cache_refresh := false, cache_dir := some "/cache", cache_file_exists := true,
    web_fetch := .error "unused", cache_read := .ok "<td>a</td>" }

/-- A cache environment with no override, a home directory, and a failing
`create_dir_all`. -/
def c9Env : CacheEnv :=
  { env_var := none, is_dir := fun _ => false, home := some "/home/u",
    create_dir_ok := false }

/-- A cache environment whose override names an existing directory. -/
def c9EnvOk : CacheEnv :=
  { env_var := some "/tmp/asm-cache", is_dir := fun _ => true,
    home := some "/home/u", create_dir_ok := true }

/-! # Theorems -/

/-! ## Map primitives -/

theorem mapInsert_self {K V : Type} [DecidableEq K] (m : K → Option V) (k : K) (v : V) :
    mapInsert m k v k = some v := by
  simp [mapInsert]

theorem mapInsert_ne {K V : Type} [DecidableEq K] (m : K → Option V) (k k2 : K) (v : V)
    (h : k2 ≠ k) : mapInsert m k v k2 = m k2 := by
  simp [mapInsert, h]

theorem mapOrInsert_preserve {K V : Type} [DecidableEq K] (m : K → Option V)
    (k k2 : K) (v w : V) (h : m k2 = some v) : mapOrInsert m k w k2 = some v := by
  unfold mapOrInsert
  cases hk : m k with
  | some x => exact h
  | none =>
    show mapInsert m k w k2 = some v
    by_cases he : k2 = k
    · rw [he] at h; rw [h] at hk; exact absurd hk (by simp)
    · rw [mapInsert_ne m k k2 w he]; exact h

/-! ## The two passes of populate_name_to_instruction_map -/

theorem instrNamesInsert_not_mem (arch : Arch) (i : Instruction) :
    ∀ (names : List String) (m : NameToInstructionMap) (n : String), n ∉ names →
      (names.foldl (fun m name => mapInsert m (arch, name) i) m) (arch, n) = m (arch, n) := by
  intro names
  induction names with
  | nil => intro m n _; rfl
  | cons a rest ih =>
    intro m n hn
    simp only [List.mem_cons, not_or] at hn
    simp only [List.foldl_cons]
    rw [ih _ n hn.2, mapInsert_ne _ _ _ _ (by simp [hn.1])]

theorem instrNamesInsert_mem (arch : Arch) (i : Instruction) :
    ∀ (names : List String) (m : NameToInstructionMap) (n : String), n ∈ names →
      (names.foldl (fun m name => mapInsert m (arch, name) i) m) (arch, n) = some i := by
  intro names
  induction names with
  | nil => intro m n h; simp at h
  | cons a rest ih =>
    intro m n hn
    simp only [List.foldl_cons]
    by_cases hr : n ∈ rest
    · exact ih _ n hr
    · have ha : n = a := by
        rcases List.mem_cons.mp hn with h | h
        · exact h
        · exact absurd h hr
      rw [instrNamesInsert_not_mem arch i rest _ n hr, ha, mapInsert_self]

theorem instrPrimaryPass_not_mem (arch : Arch) :
    ∀ (instructions : List Instruction) (m : NameToInstructionMap) (n : String),
      (∀ C ∈ instructions, n ∉ C.get_primary_names) →
      instrPrimaryPass arch instructions m (arch, n) = m (arch, n) := by
  intro instructions
  induction instructions with
  | nil => intro m n _; rfl
  | cons i rest ih =>
    intro m n h
    simp only [instrPrimaryPass, List.foldl_cons]
    rw [show (List.foldl _ _ rest) = instrPrimaryPass arch rest _ from rfl,
      ih _ n (fun C hC => h C (List.mem_cons_of_mem i hC)),
      instrNamesInsert_not_mem arch i _ _ n (h i (List.mem_cons_self i rest))]

theorem instrPrimaryPass_unique (arch : Arch) :
    ∀ (instructions : List Instruction) (m : NameToInstructionMap)
      (A : Instruction) (n : String), A ∈ instructions → n ∈ A.get_primary_names →
      (∀ C ∈ instructions, n ∈ C.get_primary_names → C = A) →
      instrPrimaryPass arch instructions m (arch, n) = some A := by
  intro instructions
  induction instructions with
  | nil => intro m A n h; simp at h
  | cons i rest ih =>
    intro m A n hA hn huniq
    simp only [instrPrimaryPass, List.foldl_cons]
    by_cases hr : A ∈ rest
    · exact ih _ A n hr hn (fun C hC => huniq C (List.mem_cons_of_mem i hC))
    · have hiA : i = A := by
        rcases List.mem_cons.mp hA with h | h
        · exact h.symm
        · exact absurd h hr
      rw [show (List.foldl _ _ rest) = instrPrimaryPass arch rest _ from rfl,
        instrPrimaryPass_not_mem arch rest _ n
          (fun C hC hCn => hr ((huniq C (List.mem_cons_of_mem i hC) hCn) ▸ hC)),
        hiA, instrNamesInsert_mem arch A _ _ n hn]

theorem instrNamesOrInsert_preserve (arch : Arch) (i : Instruction) :
    ∀ (names : List String) (m : NameToInstructionMap) (n : String) (v : Instruction),
      m (arch, n) = some v →
      (names.foldl (fun m name => mapOrInsert m (arch, name) i) m) (arch, n) = some v := by
  intro names
  induction names with
  | nil => intro m n v h; exact h
  | cons a rest ih =>
    intro m n v h
    simp only [List.foldl_cons]
    exact ih _ n v (mapOrInsert_preserve m (arch, a) (arch, n) v i h)

theorem instrAliasPass_preserve (arch : Arch) :
    ∀ (instructions : List Instruction) (m : NameToInstructionMap) (n : String)
      (v : Instruction), m (arch, n) = some v →
      instrAliasPass arch instructions m (arch, n) = some v := by
  intro instructions
  induction instructions with
  | nil => intro m n v h; exact h
  | cons i rest ih =>
    intro m n v h
    simp only [instrAliasPass, List.foldl_cons]
    exact ih _ n v (instrNamesOrInsert_preserve arch i _ m n v h)

/-- **C1.** In the index built by `populate_name_to_instruction_map`, a name
`n` that is the primary name of instruction `A` (and of no other instruction
of the collection) is bound to `A`, and never to any instruction `B` for
which `n` is only an alternate/associated name — for every list order, i.e.
for every insertion order of `B` relative to `A` within the alias pass,
because the alias pass inserts only into absent keys. -/
theorem c1_index_primacy (arch : Arch) (instructions : List Instruction)
    (m0 : NameToInstructionMap) (A : Instruction) (n : String)
    (hA : A ∈ instructions) (hn : n ∈ A.get_primary_names)
    (huniq : ∀ C ∈ instructions, n ∈ C.get_primary_names → C = A) :
    populate_name_to_instruction_map arch instructions m0 (arch, n) = some A ∧
    ∀ B : Instruction, n ∉ B.get_primary_names →
      populate_name_to_instruction_map arch instructions m0 (arch, n) ≠ some B := by
  have hmain : populate_name_to_instruction_map arch instructions m0 (arch, n) = some A := by
    unfold populate_name_to_instruction_map
    exact instrAliasPass_preserve arch instructions _ n A
      (instrPrimaryPass_unique arch instructions m0 A n hA hn huniq)
  refine ⟨hmain, fun B hB hEq => ?_⟩
  rw [hmain] at hEq
  exact hB (Option.some_injective _ hEq ▸ hn)

/-- **C1 witness.** A concrete collection where `mov` is the primary name of
`c1A` and only an alternate name of `c1B`, with `c1B` inserted first within
the list: the lookup returns `c1A`. -/
theorem c1_index_primacy_witness :
    populate_name_to_instruction_map Arch.x86 [c1B, c1A] (fun _ => none)
      (Arch.x86, "mov") = some c1A ∧
    "mov" ∈ c1B.get_associated_names := by
  refine ⟨(c1_index_primacy Arch.x86 [c1B, c1A] (fun _ => none) c1A "mov"
    (by decide) (by decide) (by decide)).1, by decide⟩

/-! ## The single-pass register and directive indices -/

theorem namesInsertG_not_mem {T V : Type} [DecidableEq T] (t : T) (v : V) :
    ∀ (names : List String) (m : T × String → Option V) (n : String), n ∉ names →
      (names.foldl (fun m name => mapInsert m (t, name) v) m) (t, n) = m (t, n) := by
  intro names
  induction names with
  | nil => intro m n _; rfl
  | cons a rest ih =>
    intro m n hn
    simp only [List.mem_cons, not_or] at hn
    simp only [List.foldl_cons]
    rw [ih _ n hn.2, mapInsert_ne _ _ _ _ (by simp [hn.1])]

theorem namesInsertG_mem {T V : Type} [DecidableEq T] (t : T) (v : V) :
    ∀ (names : List String) (m : T × String → Option V) (n : String), n ∈ names →
      (names.foldl (fun m name => mapInsert m (t, name) v) m) (t, n) = some v := by
  intro names
  induction names with
  | nil => intro m n h; simp at h
  | cons a rest ih =>
    intro m n hn
    simp only [List.foldl_cons]
    by_cases hr : n ∈ rest
    · exact ih _ n hr
    · have ha : n = a := by
        rcases List.mem_cons.mp hn with h | h
        · exact h
        · exact absurd h hr
      rw [namesInsertG_not_mem t v rest _ n hr, ha, mapInsert_self]

theorem regPass_lookup (arch : Arch) :
    ∀ (registers : List Register) (m0 : NameToRegisterMap) (n : String),
      populate_name_to_register_map arch registers m0 (arch, n) =
        match lastHolderReg n registers with
        | some r => some r
        | none => m0 (arch, n) := by
  intro registers
  induction registers with
  | nil => intro m0 n; rfl
  | cons r rest ih =>
    intro m0 n
    simp only [populate_name_to_register_map, List.foldl_cons]
    rw [show (List.foldl _ _ rest) = populate_name_to_register_map arch rest _ from rfl, ih]
    simp only [lastHolderReg]
    cases lastHolderReg n rest with
    | some x => rfl
    | none =>
      by_cases hm : n ∈ r.get_associated_names
      · simp only [hm, if_pos trivial]
        exact namesInsertG_mem arch r _ m0 n hm
      · simp only [hm, if_neg]
        exact namesInsertG_not_mem arch r _ m0 n hm

theorem dirPass_lookup (assem : Assembler) :
    ∀ (directives : List Directive) (m0 : NameToDirectiveMap) (n : String),
      populate_name_to_directive_map assem directives m0 (assem, n) =
        match lastHolderDir n directives with
        | some d => some d
        | none => m0 (assem, n) := by
  intro directives
  induction directives with
  | nil => intro m0 n; rfl
  | cons d rest ih =>
    intro m0 n
    simp only [populate_name_to_directive_map, List.foldl_cons]
    rw [show (List.foldl _ _ rest) = populate_name_to_directive_map assem rest _ from rfl, ih]
    simp only [lastHolderDir]
    cases lastHolderDir n rest with
    | some x => rfl
    | none =>
      by_cases hm : n ∈ d.get_associated_names
      · simp only [hm, if_pos trivial]
        exact namesInsertG_mem assem d _ m0 n hm
      · simp only [hm, if_neg]
        exact namesInsertG_not_mem assem d _ m0 n hm

/-- **C2 counterexample.** `pc` is the primary name of register `c2A` and
only an alias of the later register `c2B`, yet the finished register index
binds `pc` to `c2B`; the directive index behaves the same way.  This refutes
the claim that the register and directive indices insert primary names first
and aliases only into absent keys. -/
theorem c2_counterexample :
    c2A.name = "pc" ∧ "pc" ∈ c2B.alt_names ∧ "pc" ≠ c2B.name ∧
    populate_name_to_register_map Arch.x86 [c2A, c2B] (fun _ => none)
      (Arch.x86, "pc") = some c2B ∧ c2B ≠ c2A ∧
    c2D1.name = ".align" ∧ ".align" ∈ c2D2.alt_names ∧ ".align" ≠ c2D2.name ∧
    populate_name_to_directive_map Assembler.gas [c2D1, c2D2] (fun _ => none)
      (Assembler.gas, ".align") = some c2D2 ∧ c2D2 ≠ c2D1 := by
  decide

/-- **C2 (amended).** `populate_name_to_register_map` and
`populate_name_to_directive_map` are built in a single pass that inserts
every associated name with plain overwrite: for every input collection and
every ordering of its entries, a key is bound to the last entry of the list
whose associated names contain it (so a later entry whose alias equals an
earlier entry's primary name rebinds that name). -/
theorem c2_single_pass_last_wins (arch : Arch) (assem : Assembler) :
    (∀ (registers : List Register) (m0 : NameToRegisterMap) (n : String),
      populate_name_to_register_map arch registers m0 (arch, n) =
        match lastHolderReg n registers with
        | some r => some r
        | none => m0 (arch, n)) ∧
    (∀ (directives : List Directive) (m0 : NameToDirectiveMap) (n : String),
      populate_name_to_directive_map assem directives m0 (assem, n) =
        match lastHolderDir n directives with
        | some d => some d
        | none => m0 (assem, n)) :=
  ⟨regPass_lookup arch, dirPass_lookup assem⟩

/-! ## Case invariance -/

/-- **C3 counterexample.** `populate_instructions` accepts a z80 corpus
containing the two distinct instructions `mov` and `MOV`; in the index then
built by `populate_name_to_instruction_map`, the entity `mov` resolves to
itself under its original case but to the *other* entity under its
all-uppercase form, refuting case invariance for every parsed-and-indexed
collection. -/
theorem c3_counterexample :
    populate_instructions c3Events offlineEnv = .ok [c3MovLower, c3MovUpper] ∧
    strUpper c3MovLower.name = c3MovUpper.name ∧
    populate_name_to_instruction_map Arch.x86 [c3MovLower, c3MovUpper] (fun _ => none)
      (Arch.x86, c3MovLower.name) = some c3MovLower ∧
    populate_name_to_instruction_map Arch.x86 [c3MovLower, c3MovUpper] (fun _ => none)
      (Arch.x86, strUpper c3MovLower.name) = some c3MovUpper ∧
    c3MovUpper ≠ c3MovLower := by
  decide

theorem charToNat_ofNat_valid (n : Nat) (h : n.isValidChar) : (Char.ofNat n).toNat = n := by
  simp [Char.ofNat, h, Char.ofNatAux, Char.toNat, UInt32.toNat, BitVec.toNat_ofNatLt]

theorem charUpper_toNat (c : Char) (h : 97 ≤ c.toNat ∧ c.toNat ≤ 122) :
    (charUpper c).toNat = c.toNat - 32 := by
  unfold charUpper
  rw [if_pos h]
  exact charToNat_ofNat_valid _ (Or.inl (by omega))

theorem charLower_toNat (c : Char) (h : 65 ≤ c.toNat ∧ c.toNat ≤ 90) :
    (charLower c).toNat = c.toNat + 32 := by
  unfold charLower
  rw [if_pos h]
  exact charToNat_ofNat_valid _ (Or.inl (by omega))

theorem charUpper_of_not (c : Char) (h : ¬(97 ≤ c.toNat ∧ c.toNat ≤ 122)) :
    charUpper c = c := by
  unfold charUpper
  rw [if_neg h]

theorem charLower_of_not (c : Char) (h : ¬(65 ≤ c.toNat ∧ c.toNat ≤ 90)) :
    charLower c = c := by
  unfold charLower
  rw [if_neg h]

theorem charUpper_charLower (c : Char) : charUpper (charLower c) = charUpper c := by
  by_cases h : 65 ≤ c.toNat ∧ c.toNat ≤ 90
  · have hlow : (charLower c).toNat = c.toNat + 32 := charLower_toNat c h
    have hup : charUpper (charLower c) = Char.ofNat ((charLower c).toNat - 32) := by
      unfold charUpper
      rw [if_pos (by omega)]
    rw [hup, hlow, Nat.add_sub_cancel, Char.ofNat_toNat,
      charUpper_of_not c (by omega)]
  · rw [charLower_of_not c h]

theorem charUpper_charUpper (c : Char) : charUpper (charUpper c) = charUpper c := by
  by_cases h : 97 ≤ c.toNat ∧ c.toNat ≤ 122
  · have hup : (charUpper c).toNat = c.toNat - 32 := charUpper_toNat c h
    exact charUpper_of_not _ (by omega)
  · rw [charUpper_of_not c h, charUpper_of_not c h]

theorem strUpper_strLower (s : String) : strUpper (strLower s) = strUpper s := by
  unfold strUpper strLower
  simp only [List.map_map]
  have : charUpper ∘ charLower = charUpper := funext charUpper_charLower
  rw [this]

theorem strUpper_strUpper (s : String) : strUpper (strUpper s) = strUpper s := by
  unfold strUpper
  simp only [List.map_map]
  have : charUpper ∘ charUpper = charUpper := funext charUpper_charUpper
  rw [this]

/-- Applying `strUpper` to any of a name's three case variants gives the
name's uppercase form. -/
theorem strUpper_of_variant (a x : String) (hx : x ∈ caseVariants a) :
    strUpper x = strUpper a := by
  simp only [caseVariants, List.mem_cons, List.not_mem_nil, or_false] at hx
  rcases hx with rfl | rfl | rfl
  · rfl
  · exact strUpper_strUpper a
  · exact strUpper_strLower a

/-- Case variants of case-insensitively distinct names are pairwise
distinct. -/
theorem caseVariants_disjoint (a b : String) (hne : strUpper a ≠ strUpper b) :
    ∀ x ∈ caseVariants a, ∀ y ∈ caseVariants b, x ≠ y := by
  intro x hx y hy hxy
  exact hne ((strUpper_of_variant a x hx).symm.trans (hxy ▸ strUpper_of_variant b y hy))

theorem mapOrInsert_ne {K V : Type} [DecidableEq K] (m : K → Option V) (k k2 : K) (v : V)
    (h : k2 ≠ k) : mapOrInsert m k v k2 = m k2 := by
  unfold mapOrInsert
  cases m k with
  | some x => rfl
  | none => exact mapInsert_ne m k k2 v h

theorem instrNamesOrInsert_not_mem (arch : Arch) (i : Instruction) :
    ∀ (names : List String) (m : NameToInstructionMap) (n : String), n ∉ names →
      (names.foldl (fun m name => mapOrInsert m (arch, name) i) m) (arch, n) = m (arch, n) := by
  intro names
  induction names with
  | nil => intro m n _; rfl
  | cons a rest ih =>
    intro m n hn
    simp only [List.mem_cons, not_or] at hn
    simp only [List.foldl_cons]
    rw [ih _ n hn.2, mapOrInsert_ne _ _ _ _ (by simp [hn.1])]

theorem instrNamesOrInsert_mem_none (arch : Arch) (i : Instruction) :
    ∀ (names : List String) (m : NameToInstructionMap) (n : String),
      m (arch, n) = none → n ∈ names →
      (names.foldl (fun m name => mapOrInsert m (arch, name) i) m) (arch, n) = some i := by
  intro names
  induction names with
  | nil => intro m n _ h; simp at h
  | cons a rest ih =>
    intro m n hnone hn
    simp only [List.foldl_cons]
    by_cases ha : a = n
    · have hbind : (mapOrInsert m (arch, a) i) (arch, n) = some i := by
        subst ha
        unfold mapOrInsert
        rw [hnone]
        exact mapInsert_self m (arch, a) i
      exact instrNamesOrInsert_preserve arch i rest _ n i hbind
    · have hkeep : (mapOrInsert m (arch, a) i) (arch, n) = none := by
        rw [mapOrInsert_ne _ _ _ _ (by simp only [ne_eq, Prod.mk.injEq, true_and]; exact fun h => ha h.symm)]
        exact hnone
      have hmem : n ∈ rest := by
        rcases List.mem_cons.mp hn with h | h
        · exact absurd h.symm ha
        · exact h
      exact ih _ n hkeep hmem

theorem instrAliasPass_unique (arch : Arch) :
    ∀ (instructions : List Instruction) (m : NameToInstructionMap)
      (A : Instruction) (n : String), m (arch, n) = none → A ∈ instructions →
      n ∈ A.get_associated_names →
      (∀ C ∈ instructions, n ∈ C.get_associated_names → C = A) →
      instrAliasPass arch instructions m (arch, n) = some A := by
  intro instructions
  induction instructions with
  | nil => intro m A n _ h; simp at h
  | cons i rest ih =>
    intro m A n hnone hA hn huniq
    simp only [instrAliasPass, List.foldl_cons]
    rw [show (List.foldl _ _ rest) = instrAliasPass arch rest _ from rfl]
    by_cases hi : n ∈ i.get_associated_names
    · have hiA : i = A := huniq i (List.mem_cons_self i rest) hi
      subst hiA
      exact instrAliasPass_preserve arch rest _ n i
        (instrNamesOrInsert_mem_none arch i _ m n hnone hi)
    · have hkeep : (i.get_associated_names.foldl
          (fun m name => mapOrInsert m (arch, name) i) m) (arch, n) = none := by
        rw [instrNamesOrInsert_not_mem arch i _ m n hi]
        exact hnone
      have hAr : A ∈ rest := by
        rcases List.mem_cons.mp hA with h | h
        · exact absurd (h ▸ hn) hi
        · exact h
      exact ih _ A n hkeep hAr hn (fun C hC => huniq C (List.mem_cons_of_mem i hC))

theorem lastHolderReg_none (n : String) :
    ∀ (l : List Register), lastHolderReg n l = none →
      ∀ C ∈ l, n ∉ C.get_associated_names := by
  intro l
  induction l with
  | nil => intro _ C h; simp at h
  | cons r rest ih =>
    intro h C hC
    simp only [lastHolderReg] at h
    cases hrest : lastHolderReg n rest with
    | some x => rw [hrest] at h; simp at h
    | none =>
      rw [hrest] at h
      rcases List.mem_cons.mp hC with rfl | hmem
      · intro hmemn; rw [if_pos hmemn] at h; simp at h
      · exact ih hrest C hmem

theorem lastHolderReg_unique (n : String) :
    ∀ (l : List Register) (A : Register), A ∈ l → n ∈ A.get_associated_names →
      (∀ C ∈ l, n ∈ C.get_associated_names → C = A) →
      lastHolderReg n l = some A := by
  intro l
  induction l with
  | nil => intro A h; simp at h
  | cons r rest ih =>
    intro A hA hn huniq
    simp only [lastHolderReg]
    cases hrest : lastHolderReg n rest with
    | some x =>
      have hxA : x = A := by
        have : ∀ C ∈ rest, n ∈ C.get_associated_names → C = A :=
          fun C hC => huniq C (List.mem_cons_of_mem r hC)
        -- the last holder is a member holding the name
        clear ih hA hn huniq
        induction rest generalizing x with
        | nil => simp [lastHolderReg] at hrest
        | cons s srest ihs =>
          simp only [lastHolderReg] at hrest
          cases hsr : lastHolderReg n srest with
          | some y =>
            rw [hsr] at hrest
            exact ihs x (by simp at hrest; rw [hrest] at hsr; exact hsr)
              (fun C hC => this C (List.mem_cons_of_mem s hC))
          | none =>
            rw [hsr] at hrest
            by_cases hs : n ∈ s.get_associated_names
            · rw [if_pos hs] at hrest
              have : s = A := this s (List.mem_cons_self s srest) hs
              simp at hrest
              rw [← hrest, this]
            · rw [if_neg hs] at hrest; simp at hrest
      rw [hxA]
    | none =>
      have hnotrest : A ∉ rest := by
        intro hmem
        exact (lastHolderReg_none n rest hrest A hmem) hn
      have hrA : r = A := by
        rcases List.mem_cons.mp hA with h | h
        · exact h.symm
        · exact absurd h hnotrest
      rw [hrA, if_pos hn]

theorem lastHolderDir_unique (n : String) :
    ∀ (l : List Directive) (A : Directive), A ∈ l → n ∈ A.get_associated_names →
      (∀ C ∈ l, n ∈ C.get_associated_names → C = A) →
      lastHolderDir n l = some A := by
  intro l
  induction l with
  | nil => intro A h; simp at h
  | cons r rest ih =>
    intro A hA hn huniq
    simp only [lastHolderDir]
    cases hrest : lastHolderDir n rest with
    | some x =>
      have hxA : x = A := by
        have hall : ∀ C ∈ rest, n ∈ C.get_associated_names → C = A :=
          fun C hC => huniq C (List.mem_cons_of_mem r hC)
        clear ih hA hn huniq
        induction rest generalizing x with
        | nil => simp [lastHolderDir] at hrest
        | cons s srest ihs =>
          simp only [lastHolderDir] at hrest
          cases hsr : lastHolderDir n srest with
          | some y =>
            rw [hsr] at hrest
            exact ihs x (by simp at hrest; rw [hrest] at hsr; exact hsr)
              (fun C hC => hall C (List.mem_cons_of_mem s hC))
          | none =>
            rw [hsr] at hrest
            by_cases hs : n ∈ s.get_associated_names
            · rw [if_pos hs] at hrest
              have : s = A := hall s (List.mem_cons_self s srest) hs
              simp at hrest
              rw [← hrest, this]
            · rw [if_neg hs] at hrest; simp at hrest
      rw [hxA]
    | none =>
      have hnotrest : A ∉ rest := by
        intro hmem
        have : ∀ C ∈ rest, n ∉ C.get_associated_names := by
          clear ih hA hn huniq hmem
          induction rest with
          | nil => intro C h; simp at h
          | cons s srest ihs =>
            simp only [lastHolderDir] at hrest
            intro C hC
            cases hsr : lastHolderDir n srest with
            | some x => rw [hsr] at hrest; simp at hrest
            | none =>
              rw [hsr] at hrest
              rcases List.mem_cons.mp hC with rfl | hmem2
              · intro hmemn; rw [if_pos hmemn] at hrest; simp at hrest
              · exact ihs hsr C hmem2
        exact (this A hmem) hn
      have hrA : r = A := by
        rcases List.mem_cons.mp hA with h | h
        · exact h.symm
        · exact absurd h hnotrest
      rw [hrA, if_pos hn]

/-- **C3 (amended).** Case invariance holds for the entries whose alternate
names are exactly the generated case variants, provided no two distinct
entries of the indexed collection have names equal up to ASCII case: all
three case forms of such an entity's name then resolve to that entity, for
the instruction index (two passes) as well as for the register index
(single pass).  The unamended claim fails when two entries' names differ
only by case (see the counterexample). -/
theorem c3_case_invariance (arch : Arch)
    (instrs : List Instruction) (regs : List Register)
    (A : Instruction) (R : Register)
    (hA : A ∈ instrs) (hR : R ∈ regs)
    (hshapeI : ∀ C ∈ instrs, C.alt_names = [strUpper C.name, strLower C.name])
    (hdistI : ∀ C ∈ instrs, ∀ D ∈ instrs, C ≠ D → strUpper C.name ≠ strUpper D.name)
    (hshapeR : ∀ C ∈ regs, C.alt_names = [strUpper C.name, strLower C.name])
    (hdistR : ∀ C ∈ regs, ∀ D ∈ regs, C ≠ D → strUpper C.name ≠ strUpper D.name) :
    (∀ n ∈ caseVariants A.name,
      populate_name_to_instruction_map arch instrs (fun _ => none) (arch, n) = some A) ∧
    (∀ n ∈ caseVariants R.name,
      populate_name_to_register_map arch regs (fun _ => none) (arch, n) = some R) := by
  constructor
  · intro n hn
    have hupN : strUpper n = strUpper A.name := strUpper_of_variant _ n hn
    have huniqP : ∀ C ∈ instrs, n ∈ C.get_primary_names → C = A := by
      intro C hC hmem
      have hnC : n = C.name := by
        simpa [Instruction.get_primary_names] using hmem
      by_contra hne
      exact hdistI C hC A hA hne (hnC ▸ hupN)
    have huniqA : ∀ C ∈ instrs, n ∈ C.get_associated_names → C = A := by
      intro C hC hmem
      have hvar : n ∈ caseVariants C.name := by
        have hsh := hshapeI C hC
        simp only [Instruction.get_associated_names, hsh, List.mem_cons,
          List.not_mem_nil, or_false] at hmem
        simp only [caseVariants, List.mem_cons, List.not_mem_nil, or_false]
        rcases hmem with h | h
        · right; left; exact h
        · right; right; exact h
      have hupC : strUpper n = strUpper C.name := strUpper_of_variant _ n hvar
      by_contra hne
      exact hdistI C hC A hA hne (hupC.symm.trans hupN)
    by_cases hname : n = A.name
    · unfold populate_name_to_instruction_map
      exact instrAliasPass_preserve arch instrs _ n A
        (instrPrimaryPass_unique arch instrs _ A n hA
          (by simp [Instruction.get_primary_names, hname]) huniqP)
    · unfold populate_name_to_instruction_map
      apply instrAliasPass_unique arch instrs _ A n
      · rw [instrPrimaryPass_not_mem arch instrs _ n
          (fun C hC hmem => hname (by
            have hnC : n = C.name := by
              simpa [Instruction.get_primary_names] using hmem
            rw [hnC, huniqP C hC hmem]))]
      · exact hA
      · have hsh := hshapeI A hA
        simp only [Instruction.get_associated_names, hsh, List.mem_cons,
          List.not_mem_nil, or_false]
        have := hn
        simp only [caseVariants, List.mem_cons, List.not_mem_nil, or_false] at this
        rcases this with h | h | h
        · exact absurd h hname
        · left; exact h
        · right; exact h
      · exact huniqA
  · intro n hn
    have hupN : strUpper n = strUpper R.name := strUpper_of_variant _ n hn
    have hassoc : ∀ C ∈ regs, C.get_associated_names = caseVariants C.name := by
      intro C hC
      simp [Register.get_associated_names, hshapeR C hC, caseVariants]
    have huniq : ∀ C ∈ regs, n ∈ C.get_associated_names → C = R := by
      intro C hC hmem
      rw [hassoc C hC] at hmem
      have hupC : strUpper n = strUpper C.name := strUpper_of_variant _ n hmem
      by_contra hne
      exact hdistR C hC R hR hne (hupC.symm.trans hupN)
    rw [regPass_lookup arch regs _ n,
      lastHolderReg_unique n regs R hR ((hassoc R hR).symm ▸ hn) huniq]

/-- **C3 witness.** A concrete mixed-case instruction and register: the
uppercase lookup of the instruction and the lowercase lookup of the register
resolve to the respective entity. -/
theorem c3_case_invariance_witness :
    populate_name_to_instruction_map Arch.x86 [c3WInstr] (fun _ => none)
      (Arch.x86, strUpper c3WInstr.name) = some c3WInstr ∧
    populate_name_to_register_map Arch.x86 [c3WReg] (fun _ => none)
      (Arch.x86, strLower c3WReg.name) = some c3WReg := by
  have h := c3_case_invariance Arch.x86 [c3WInstr] [c3WReg] c3WInstr c3WReg
    (by decide) (by decide) (by decide) (by decide) (by decide) (by decide)
  exact ⟨h.1 (strUpper c3WInstr.name) (by decide), h.2 (strLower c3WReg.name) (by decide)⟩

/-! ## z80 opcode accumulation -/

theorem applyEncoding_eq :
    ∀ (attrs : List (String × String)) (f : InstructionForm),
      applyEncoding f attrs =
        { f with z80_opcode := appendBytes f.z80_opcode (encodingBytes attrs) } := by
  intro attrs
  induction attrs with
  | nil => intro f; rfl
  | cons kv rest ih =>
    intro f
    rw [show applyEncoding f (kv :: rest) = applyEncoding (applyEncodingAttr f kv) rest
      from rfl, ih]
    by_cases hk : kv.1 = "byte"
    · cases ho : f.z80_opcode with
      | some p => simp [applyEncodingAttr, hk, ho, encodingBytes, appendBytes]
      | none => simp [applyEncodingAttr, hk, ho, encodingBytes, appendBytes]
    · simp [applyEncodingAttr, hk, encodingBytes]

theorem appendBytes_some : ∀ (bs : List String) (p : String),
    appendBytes (some p) bs = some (p ++ joinBytes bs) := by
  intro bs
  induction bs with
  | nil => intro p; simp [appendBytes, joinBytes]
  | cons b rest ih =>
    intro p
    show appendBytes (some (p ++ (b ++ " "))) rest = _
    rw [ih, joinBytes]
    simp [String.append_assoc]

theorem appendBytes_none (bs : List String) :
    appendBytes none bs = opcodeOfBytes bs := by
  cases bs with
  | nil => rfl
  | cons b rest =>
    show appendBytes (some (b ++ " ")) rest = _
    rw [appendBytes_some, opcodeOfBytes]
    simp [joinBytes, String.append_assoc]

theorem appendBytes_append (o : Option String) (bs1 bs2 : List String) :
    appendBytes o (bs1 ++ bs2) = appendBytes (appendBytes o bs1) bs2 := by
  simp [appendBytes, List.foldl_append]

theorem runEncodingEvents_general :
    ∀ (attrLists : List (List (String × String))) (s : InstrState),
      runInstrEvents (attrLists.map (fun attrs => XmlEvent.start "Encoding" attrs)) s =
        .ok { s with curr_instruction_form :=
          { s.curr_instruction_form with z80_opcode :=
              (appendBytes s.curr_instruction_form.z80_opcode
                (attrLists.map encodingBytes).flatten) } } := by
  intro attrLists
  induction attrLists with
  | nil => intro s; rfl
  | cons attrs rest ih =>
    intro s
    have hstep : runInstrEvents
        ((attrs :: rest).map (fun attrs => XmlEvent.start "Encoding" attrs)) s =
        runInstrEvents (rest.map (fun attrs => XmlEvent.start "Encoding" attrs))
          { s with curr_instruction_form := applyEncoding s.curr_instruction_form attrs } :=
      rfl
    rw [hstep, ih]
    rw [applyEncoding_eq]
    simp [appendBytes_append]

/-- **C6.** Within one instruction form, the `Encoding` handler of
`populate_instructions` concatenates all `byte` declarations in document
order, each followed by a space: starting from a form with no opcode yet,
processing any sequence of `Encoding` elements yields the space-separated
concatenation of their byte values as the form's `z80_opcode`, and `none`
(no opcode string) when no `Encoding` element carries a byte. -/
theorem c6_z80_opcode_concat (attrLists : List (List (String × String)))
    (s : InstrState) (h : s.curr_instruction_form.z80_opcode = none) :
    runInstrEvents (attrLists.map (fun attrs => XmlEvent.start "Encoding" attrs)) s =
      .ok { s with curr_instruction_form :=
        { s.curr_instruction_form with z80_opcode :=
            (opcodeOfBytes (attrLists.map encodingBytes).flatten) } } := by
  rw [runEncodingEvents_general, h, appendBytes_none]

/-- **C6 witness.** Two `Encoding` elements with bytes `0x40` and `0x41`
(plus an irrelevant attribute) processed from the initial state produce the
opcode string `0x40 0x41 `; evaluating both sides shows the concatenation
concretely. -/
theorem c6_z80_opcode_concat_witness :
    runInstrEvents (([[("byte", "0x40")], [("byte", "0x41"), ("q", "r")]]).map
        (fun attrs => XmlEvent.start "Encoding" attrs)) {} =
      .ok { ({} : InstrState) with curr_instruction_form :=
        { ({} : InstrState).curr_instruction_form with z80_opcode :=
            (opcodeOfBytes (([[("byte", "0x40")], [("byte", "0x41"), ("q", "r")]]).map
              encodingBytes).flatten) } } ∧
    opcodeOfBytes (([[("byte", "0x40")], [("byte", "0x41"), ("q", "r")]]).map
      encodingBytes).flatten = some "0x40 0x41 " :=
  ⟨c6_z80_opcode_concat [[("byte", "0x40")], [("byte", "0x41"), ("q", "r")]] {} rfl,
   by decide⟩

/-! ## z80 timing order independence -/

theorem Z80Timing.setField_comm (t : Z80Timing) (f1 f2 : TimingField)
    (v1 v2 : Z80TimingInfo) (h : f1 ≠ f2) :
    (t.setField f1 v1).setField f2 v2 = (t.setField f2 v2).setField f1 v1 := by
  cases f1 <;> cases f2 <;> first
  | exact absurd rfl h
  | rfl

theorem stepInstruction_timingEvt (s : InstrState) (fld : TimingField) (v : String)
    (t : Z80TimingInfo) (hv : Z80TimingInfo.from_str v = .ok t) :
    stepInstruction s (timingEvt fld v) =
      .ok { s with curr_instruction_form :=
        { s.curr_instruction_form with z80_timing :=
            (some ((s.curr_instruction_form.z80_timing.getD {}).setField fld t)) } } := by
  cases fld <;> cases hft : s.curr_instruction_form.z80_timing <;>
    simp [timingEvt, stepInstruction, applyTimingAttr, hv, hft, Z80Timing.setField] <;> rfl

theorem runTimingEvents (tl : List (TimingField × String)) :
    ∀ (s : InstrState),
      (∀ p ∈ tl, ∃ t, Z80TimingInfo.from_str p.2 = .ok t) →
      runInstrEvents (tl.map (fun p => timingEvt p.1 p.2)) s =
        .ok { s with curr_instruction_form :=
          { s.curr_instruction_form with z80_timing :=
              (foldTimings s.curr_instruction_form.z80_timing tl) } } := by
  induction tl with
  | nil => intro s _; rfl
  | cons p rest ih =>
    intro s hall
    obtain ⟨t, ht⟩ := hall p (List.mem_cons_self p rest)
    have hstep : runInstrEvents ((p :: rest).map (fun p => timingEvt p.1 p.2)) s =
        (stepInstruction s (timingEvt p.1 p.2)).bind
          (fun s2 => runInstrEvents (rest.map (fun p => timingEvt p.1 p.2)) s2) := by
      simp [runInstrEvents, List.foldlM_cons]
      rfl
    rw [hstep, stepInstruction_timingEvt s p.1 p.2 t ht]
    show runInstrEvents (rest.map (fun p => timingEvt p.1 p.2)) _ = _
    rw [ih _ (fun q hq => hall q (List.mem_cons_of_mem p hq))]
    have hval : timingVal p.2 = t := by simp [timingVal, ht]
    simp [foldTimings, hval]

theorem foldTimings_perm {tl1 tl2 : List (TimingField × String)}
    (hperm : tl1.Perm tl2)
    (hpw : tl1.Pairwise (fun p q => p.1 ≠ q.1)) :
    ∀ o, foldTimings o tl1 = foldTimings o tl2 := by
  induction hperm with
  | nil => intro o; rfl
  | cons x h ih =>
    intro o
    show foldTimings (some ((o.getD {}).setField x.1 (timingVal x.2))) _ = _
    rw [ih (List.Pairwise.sublist (List.sublist_cons_self x _) hpw)]
    rfl
  | swap x y l =>
    intro o
    have hxy : y.1 ≠ x.1 := (List.pairwise_cons.mp hpw).1 x (List.mem_cons_self x l)
    show foldTimings (some (((o.getD {}).setField y.1 (timingVal y.2)).setField x.1
      (timingVal x.2))) l = foldTimings (some (((o.getD {}).setField x.1
      (timingVal x.2)).setField y.1 (timingVal y.2))) l
    rw [Z80Timing.setField_comm _ _ _ _ _ hxy]
  | trans h1 h2 ih1 ih2 =>
    intro o
    rw [ih1 hpw, ih2 ((h1.pairwise_iff (fun h => Ne.symm h)).mp hpw)]

/-- **C10.** Within one form, the final `z80_timing` record is independent
of the relative document order of the `TimingZ80`, `TimingZ80M1`,
`TimingR800` and `TimingR800Wait` declarations: starting from a form with no
timing record, processing any permutation of the four (parseable)
declarations through the event loop yields the same record, holding each
declaration's value in its own field. -/
theorem c10_timing_order_independent (a b c d : String)
    (ta tb tc td : Z80TimingInfo)
    (ha : Z80TimingInfo.from_str a = .ok ta)
    (hb : Z80TimingInfo.from_str b = .ok tb)
    (hc : Z80TimingInfo.from_str c = .ok tc)
    (hd : Z80TimingInfo.from_str d = .ok td)
    (tl : List (TimingField × String))
    (hperm : tl.Perm
      [(.z80, a), (.z80_plus_m1, b), (.r800, c), (.r800_plus_wait, d)])
    (s : InstrState) (h : s.curr_instruction_form.z80_timing = none) :
    runInstrEvents (tl.map (fun p => timingEvt p.1 p.2)) s =
      .ok { s with curr_instruction_form :=
        { s.curr_instruction_form with z80_timing :=
            (some { z80 := ta, z80_plus_m1 := tb, r800 := tc, r800_plus_wait := td }) } } := by
  have hall : ∀ p ∈ tl, ∃ t, Z80TimingInfo.from_str p.2 = .ok t := by
    intro p hp
    have hmem := hperm.subset hp
    simp only [List.mem_cons, List.not_mem_nil, or_false] at hmem
    rcases hmem with rfl | rfl | rfl | rfl
    · exact ⟨ta, ha⟩
    · exact ⟨tb, hb⟩
    · exact ⟨tc, hc⟩
    · exact ⟨td, hd⟩
  rw [runTimingEvents tl s hall, h]
  have hpw4 : ([((TimingField.z80 : TimingField), a), (.z80_plus_m1, b),
      (.r800, c), (.r800_plus_wait, d)]).Pairwise (fun p q => p.1 ≠ q.1) := by
    simp [List.pairwise_cons]
  have hpw : tl.Pairwise (fun p q => p.1 ≠ q.1) :=
    (hperm.pairwise_iff (fun h2 => Ne.symm h2)).mpr hpw4
  rw [foldTimings_perm hperm hpw none]
  simp [foldTimings, timingVal, ha, hb, hc, hd, Z80Timing.setField]

/-- **C10 witness.** The four timing declarations given in reverse document
order produce the same record as the forward order: each field holds its own
declaration's parsed value. -/
theorem c10_timing_order_independent_witness :
    runInstrEvents (([((TimingField.r800_plus_wait : TimingField), "4"),
        (.r800, "3"), (.z80_plus_m1, "2"), (.z80, "1")]).map
        (fun p => timingEvt p.1 p.2)) {} =
      .ok { ({} : InstrState) with curr_instruction_form :=
        { ({} : InstrState).curr_instruction_form with z80_timing :=
            (some { z80 := .oneNum 1, z80_plus_m1 := .oneNum 2,
                    r800 := .oneNum 3, r800_plus_wait := .oneNum 4 }) } } :=
  c10_timing_order_independent "1" "2" "3" "4"
    (.oneNum 1) (.oneNum 2) (.oneNum 3) (.oneNum 4)
    (by decide) (by decide) (by decide) (by decide)
    [(.r800_plus_wait, "4"), (.r800, "3"), (.z80_plus_m1, "2"), (.z80, "1")]
    (by decide) {} rfl

/-! ## Name-keyed collections: overwrite-on-commit and key uniqueness -/

theorem AssocMap.keys_insert {V : Type} (m : AssocMap V) (k : String) (v : V) :
    (m.insert k v).keys =
      if m.any (fun p => p.1 = k) then m.keys else m.keys ++ [k] := by
  by_cases h : m.any (fun p => p.1 = k)
  · rw [if_pos h]
    unfold AssocMap.insert
    rw [if_pos h]
    unfold AssocMap.keys
    rw [List.map_map]
    apply List.map_congr_left
    intro p _
    by_cases hp : p.1 = k
    · simp [hp]
    · simp [hp]
  · rw [if_neg h]
    unfold AssocMap.insert
    rw [if_neg h]
    unfold AssocMap.keys
    simp

theorem AssocMap.not_any_not_mem_keys {V : Type} (m : AssocMap V) (k : String)
    (h : ¬m.any (fun p => p.1 = k)) : k ∉ m.keys := by
  intro hmem
  unfold AssocMap.keys at hmem
  obtain ⟨p, hp, hpk⟩ := List.mem_map.mp hmem
  exact h (List.any_eq_true.mpr ⟨p, hp, by simp [hpk]⟩)

theorem AssocMap.keys_nodup_insert {V : Type} (m : AssocMap V) (k : String) (v : V)
    (h : m.keys.Nodup) : (m.insert k v).keys.Nodup := by
  rw [AssocMap.keys_insert]
  by_cases ha : m.any (fun p => p.1 = k)
  · rw [if_pos ha]; exact h
  · rw [if_neg ha]
    refine List.Nodup.append h (List.nodup_singleton k) ?_
    intro x hx hx2
    rw [List.mem_singleton.mp hx2] at hx
    exact AssocMap.not_any_not_mem_keys m k ha hx

theorem AssocMap.mem_insert {V : Type} (m : AssocMap V) (k : String) (v : V)
    (p : String × V) (h : p ∈ m.insert k v) : p = (k, v) ∨ p ∈ m := by
  unfold AssocMap.insert at h
  by_cases ha : m.any (fun p => p.1 = k)
  · rw [if_pos ha] at h
    obtain ⟨q, hq, hfq⟩ := List.mem_map.mp h
    by_cases hqk : q.1 = k
    · left; rw [← hfq]; simp [hqk]
    · right; rw [← hfq]; simp [hqk]; exact hq
  · rw [if_neg ha] at h
    rcases List.mem_append.mp h with h2 | h2
    · right; exact h2
    · left; exact List.mem_singleton.mp h2

theorem AssocMap.wf_insert {V : Type} (kf : V → String) (m : AssocMap V)
    (v : V) (hwf : AssocMap.wf kf m) : AssocMap.wf kf (m.insert (kf v) v) := by
  constructor
  · intro p hp
    rcases AssocMap.mem_insert m (kf v) v p hp with rfl | hmem
    · rfl
    · exact hwf.1 p hmem
  · exact AssocMap.keys_nodup_insert m (kf v) v hwf.2

theorem AssocMap.wf_adjust {V : Type} (kf : V → String) (m : AssocMap V)
    (k : String) (f : V → V) (hf : ∀ v, kf (f v) = kf v)
    (hwf : AssocMap.wf kf m) : AssocMap.wf kf (m.adjust k f) := by
  constructor
  · intro p hp
    unfold AssocMap.adjust at hp
    obtain ⟨q, hq, hfq⟩ := List.mem_map.mp hp
    by_cases hqk : q.1 = k
    · rw [← hfq]; simp only [hqk, if_pos trivial]
      rw [hf q.2, ← hqk]
      exact hwf.1 q hq
    · rw [← hfq]; simp only [hqk, if_neg]
      exact hwf.1 q hq
  · have : (m.adjust k f).keys = m.keys := by
      unfold AssocMap.adjust AssocMap.keys
      rw [List.map_map]
      apply List.map_congr_left
      intro p _
      by_cases hp : p.1 = k
      · simp [hp]
      · simp [hp]
    rw [this]
    exact hwf.2

theorem AssocMap.wf_values_nodup {V : Type} (kf : V → String) (m : AssocMap V)
    (hwf : AssocMap.wf kf m) : (m.values.map kf).Nodup := by
  have : m.values.map kf = m.keys := by
    unfold AssocMap.values AssocMap.keys
    rw [List.map_map]
    apply List.map_congr_left
    intro p hp
    exact (hwf.1 p hp).symm
  rw [this]
  exact hwf.2

theorem AssocMap.insert_insert_same {V : Type} (m : AssocMap V) (k : String)
    (v w : V) : (m.insert k v).insert k w = m.insert k w := by
  unfold AssocMap.insert
  by_cases ha : m.any (fun p => p.1 = k)
  · have ha2 : (m.map (fun p => if p.1 = k then (k, v) else p)).any
        (fun p => p.1 = k) = true := by
      obtain ⟨p, hp, hpk⟩ := List.any_eq_true.mp ha
      exact List.any_eq_true.mpr ⟨if p.1 = k then (k, v) else p,
        List.mem_map.mpr ⟨p, hp, rfl⟩, by simp at hpk; simp [hpk]⟩
    rw [if_pos ha, if_pos ha2, if_pos ha, List.map_map]
    apply List.map_congr_left
    intro p _
    by_cases hp : p.1 = k
    · simp [hp]
    · simp [hp]
  · have ha2 : (m ++ [(k, v)]).any (fun p => p.1 = k) = true := by
      refine List.any_eq_true.mpr ⟨(k, v), List.mem_append.mpr (Or.inr ?_), by simp⟩
      exact List.mem_singleton.mpr rfl
    rw [if_neg ha, if_pos ha2, if_neg ha, List.map_append]
    congr 1
    · conv_rhs => rw [← List.map_id m]
      apply List.map_congr_left
      intro p hp
      have hpk : ¬p.1 = k := by
        intro hpk
        exact ha (List.any_eq_true.mpr ⟨p, hp, by simp [hpk]⟩)
      simp [hpk]
    · simp

theorem AssocMap.find_map_replace {V : Type} (k : String) (v : V) :
    ∀ (l : AssocMap V), (∃ p ∈ l, p.1 = k) →
      AssocMap.find (l.map (fun p => if p.1 = k then (k, v) else p)) k = some v := by
  intro l
  induction l with
  | nil => intro h; obtain ⟨p, hp, _⟩ := h; simp at hp
  | cons q rest ih =>
    intro h
    obtain ⟨p, hp, hpk⟩ := h
    by_cases hq : q.1 = k
    · unfold AssocMap.find
      simp [hq]
    · have hmem : p ∈ rest := by
        rcases List.mem_cons.mp hp with rfl | hmem
        · exact absurd hpk hq
        · exact hmem
      show AssocMap.find ((if q.1 = k then (k, v) else q) ::
        rest.map (fun p => if p.1 = k then (k, v) else p)) k = some v
      rw [if_neg hq]
      unfold AssocMap.find
      rw [List.find?_cons_of_neg _ (by simp [hq])]
      exact ih ⟨p, hmem, hpk⟩

theorem AssocMap.find_append_last {V : Type} (k : String) (v : V) :
    ∀ (l : AssocMap V), (∀ p ∈ l, ¬p.1 = k) →
      AssocMap.find (l ++ [(k, v)]) k = some v := by
  intro l
  induction l with
  | nil => unfold AssocMap.find; simp
  | cons q rest ih =>
    intro h
    show AssocMap.find (q :: (rest ++ [(k, v)])) k = some v
    unfold AssocMap.find
    rw [List.find?_cons_of_neg _ (by simp [h q (List.mem_cons_self q rest)])]
    exact ih (fun p hp => h p (List.mem_cons_of_mem q hp))

theorem AssocMap.find_insert {V : Type} (m : AssocMap V) (k : String) (v : V) :
    (m.insert k v).find k = some v := by
  unfold AssocMap.insert
  by_cases ha : m.any (fun p => p.1 = k)
  · rw [if_pos ha]
    obtain ⟨p, hp, hpk⟩ := List.any_eq_true.mp ha
    simp only [decide_eq_true_eq] at hpk
    exact AssocMap.find_map_replace k v m ⟨p, hp, hpk⟩
  · rw [if_neg ha]
    exact AssocMap.find_append_last k v m
      (fun p hp hpk => ha (List.any_eq_true.mpr ⟨p, hp, by simp [hpk]⟩))

theorem exceptBind_ok {ε α β : Type} (x : Except ε α) (g : α → Except ε β) (b : β)
    (h : (x >>= g) = .ok b) : ∃ a, x = .ok a ∧ g a = .ok b := by
  cases x with
  | error e => exact Except.noConfusion h
  | ok a => exact ⟨a, rfl, h⟩

theorem stepInstruction_map (s : InstrState) (e : XmlEvent) (s2 : InstrState)
    (h : stepInstruction s e = .ok s2) :
    s2.instructions_map = s.instructions_map ∨
    s2.instructions_map =
      s.instructions_map.insert s.curr_instruction.name s.curr_instruction := by
  unfold stepInstruction at h
  split at h
  all_goals try (injection h with h; subst h; left; rfl)
  all_goals try (injection h with h; subst h; right; rfl)
  all_goals
    obtain ⟨f, hf, h2⟩ := exceptBind_ok _ _ _ h
  all_goals injection h2 with h2; subst h2; left; rfl

theorem stepRegister_map (s : RegState) (e : XmlEvent) (s2 : RegState)
    (h : stepRegister s e = .ok s2) :
    s2.registers_map = s.registers_map ∨
    s2.registers_map =
      s.registers_map.insert s.curr_register.name s.curr_register := by
  unfold stepRegister at h
  split at h
  all_goals try (injection h with h; subst h; left; rfl)
  all_goals try (injection h with h; subst h; right; rfl)
  all_goals
    obtain ⟨f, hf, h2⟩ := exceptBind_ok _ _ _ h
  all_goals injection h2 with h2; subst h2; left; rfl

theorem stepDirective_map (s : DirState) (e : XmlEvent) (s2 : DirState)
    (h : stepDirective s e = .ok s2) :
    s2.directives_map = s.directives_map ∨
    s2.directives_map =
      s.directives_map.insert s.curr_directive.name s.curr_directive := by
  unfold stepDirective at h
  split at h
  all_goals try (injection h with h; subst h; left; rfl)
  all_goals try (injection h with h; subst h; right; rfl)
  all_goals
    obtain ⟨f, hf, h2⟩ := exceptBind_ok _ _ _ h
  all_goals injection h2 with h2; subst h2; left; rfl

theorem runInstr_wf : ∀ (evs : List XmlEvent) (s s2 : InstrState),
    AssocMap.wf (fun i => i.name) s.instructions_map →
    runInstrEvents evs s = .ok s2 →
    AssocMap.wf (fun i => i.name) s2.instructions_map := by
  intro evs
  induction evs with
  | nil => intro s s2 hwf h; injection h with h; subst h; exact hwf
  | cons e rest ih =>
    intro s s2 hwf h
    obtain ⟨s1, h1, h2⟩ := exceptBind_ok _ _ _ (by
      rw [show runInstrEvents (e :: rest) s =
        (stepInstruction s e >>= fun s1 => runInstrEvents rest s1) from rfl] at h
      exact h)
    rcases stepInstruction_map s e s1 h1 with hmap | hmap
    · exact ih s1 s2 (hmap ▸ hwf) h2
    · refine ih s1 s2 ?_ h2
      rw [hmap]
      exact AssocMap.wf_insert (fun i => i.name) s.instructions_map
        s.curr_instruction hwf

theorem runReg_wf : ∀ (evs : List XmlEvent) (s s2 : RegState),
    AssocMap.wf (fun r => r.name) s.registers_map →
    evs.foldlM stepRegister s = .ok s2 →
    AssocMap.wf (fun r => r.name) s2.registers_map := by
  intro evs
  induction evs with
  | nil => intro s s2 hwf h; injection h with h; subst h; exact hwf
  | cons e rest ih =>
    intro s s2 hwf h
    obtain ⟨s1, h1, h2⟩ := exceptBind_ok _ _ _ (by
      rw [show (e :: rest).foldlM stepRegister s =
        (stepRegister s e >>= fun s1 => rest.foldlM stepRegister s1) from rfl] at h
      exact h)
    rcases stepRegister_map s e s1 h1 with hmap | hmap
    · exact ih s1 s2 (hmap ▸ hwf) h2
    · refine ih s1 s2 ?_ h2
      rw [hmap]
      exact AssocMap.wf_insert (fun r => r.name) s.registers_map s.curr_register hwf

theorem runDir_wf : ∀ (evs : List XmlEvent) (s s2 : DirState),
    AssocMap.wf (fun d => d.name) s.directives_map →
    evs.foldlM stepDirective s = .ok s2 →
    AssocMap.wf (fun d => d.name) s2.directives_map := by
  intro evs
  induction evs with
  | nil => intro s s2 hwf h; injection h with h; subst h; exact hwf
  | cons e rest ih =>
    intro s s2 hwf h
    obtain ⟨s1, h1, h2⟩ := exceptBind_ok _ _ _ (by
      rw [show (e :: rest).foldlM stepDirective s =
        (stepDirective s e >>= fun s1 => rest.foldlM stepDirective s1) from rfl] at h
      exact h)
    rcases stepDirective_map s e s1 h1 with hmap | hmap
    · exact ih s1 s2 (hmap ▸ hwf) h2
    · refine ih s1 s2 ?_ h2
      rw [hmap]
      exact AssocMap.wf_insert (fun d => d.name) s.directives_map s.curr_directive hwf

theorem attachUrls_wf : ∀ (lines : List String) (m : AssocMap Instruction)
    (base : String) (m2 : AssocMap Instruction),
    AssocMap.wf (fun i => i.name) m →
    attachUrls m base lines = .ok m2 →
    AssocMap.wf (fun i => i.name) m2 := by
  intro lines
  induction lines with
  | nil => intro m base m2 hwf h; injection h with h; subst h; exact hwf
  | cons line rest ih =>
    intro m base m2 hwf h
    unfold attachUrls at h
    cases hc : reCaptures line with
    | none =>
      rw [show (line :: rest).foldlM _ m =
        ((match reCaptures line with
          | none => Except.error (PErr.panic "called Option unwrap on a None value")
          | some caps => Except.ok (m.adjust caps.2
              (fun i => { i with url := some (base ++ caps.1) }))) >>=
          fun m1 => rest.foldlM _ m1) from rfl, hc] at h
      exact Except.noConfusion h
    | some caps =>
      rw [show (line :: rest).foldlM _ m =
        ((match reCaptures line with
          | none => Except.error (PErr.panic "called Option unwrap on a None value")
          | some caps => Except.ok (m.adjust caps.2
              (fun i => { i with url := some (base ++ caps.1) }))) >>=
          fun m1 => rest.foldlM _ m1) from rfl, hc] at h
      refine ih _ base m2 ?_ h
      refine AssocMap.wf_adjust (fun i => i.name) m caps.2
        (fun i => { i with url := some (base ++ caps.1) }) ?_ hwf
      intro v
      rfl

theorem populate_instructions_names_nodup (evs : List XmlEvent) (env : DocsEnv)
    (l : List Instruction) (h : populate_instructions evs env = .ok l) :
    (l.map (fun i => i.name)).Nodup := by
  unfold populate_instructions at h
  obtain ⟨s, hrun, h2⟩ := exceptBind_ok _ _ _ h
  have hwf := runInstr_wf evs {} s
    ⟨fun p hp => absurd hp (List.not_mem_nil p), List.nodup_nil⟩ hrun
  split at h2 <;> first
  | (obtain ⟨m2, hatt, h3⟩ := exceptBind_ok _ _ _ h2
     injection h3 with h3
     subst h3
     exact AssocMap.wf_values_nodup _ m2 (attachUrls_wf _ _ _ _ hwf hatt))
  | (injection h2 with h2
     subst h2
     exact AssocMap.wf_values_nodup _ _ hwf)

theorem populate_registers_names_nodup (evs : List XmlEvent)
    (l : List Register) (h : populate_registers evs = .ok l) :
    (l.map (fun r => r.name)).Nodup := by
  unfold populate_registers at h
  obtain ⟨s, hrun, h2⟩ := exceptBind_ok _ _ _ h
  have hwf := runReg_wf evs {} s
    ⟨fun p hp => absurd hp (List.not_mem_nil p), List.nodup_nil⟩ hrun
  injection h2 with h2
  subst h2
  exact AssocMap.wf_values_nodup _ _ hwf

theorem populate_directives_names_nodup (evs : List XmlEvent)
    (l : List Directive) (h : populate_directives evs = .ok l) :
    (l.map (fun d => d.name)).Nodup := by
  unfold populate_directives at h
  obtain ⟨s, hrun, h2⟩ := exceptBind_ok _ _ _ h
  have hwf := runDir_wf evs {} s
    ⟨fun p hp => absurd hp (List.not_mem_nil p), List.nodup_nil⟩ hrun
  injection h2 with h2
  subst h2
  exact AssocMap.wf_values_nodup _ _ hwf

/-- **C5.** The commit on each closing element overwrites any earlier entry
of the same name in the name-keyed collection: every result of
`populate_instructions` / `populate_registers` / `populate_directives`
carries pairwise-distinct names (exactly one entry per name), and committing
two entries under the same name leaves the collection exactly as if only the
later one had been committed — the lookup yields the later element's
fields. -/
theorem c5_last_element_wins :
    (∀ (evs : List XmlEvent) (env : DocsEnv) (l : List Instruction),
      populate_instructions evs env = .ok l → (l.map (fun i => i.name)).Nodup) ∧
    (∀ (evs : List XmlEvent) (l : List Register),
      populate_registers evs = .ok l → (l.map (fun r => r.name)).Nodup) ∧
    (∀ (evs : List XmlEvent) (l : List Directive),
      populate_directives evs = .ok l → (l.map (fun d => d.name)).Nodup) ∧
    (∀ (m : AssocMap Instruction) (i1 i2 : Instruction), i1.name = i2.name →
      (m.insert i1.name i1).insert i2.name i2 = m.insert i2.name i2 ∧
      ((m.insert i1.name i1).insert i2.name i2).find i1.name = some i2) := by
  refine ⟨populate_instructions_names_nodup, populate_registers_names_nodup,
    populate_directives_names_nodup, fun m i1 i2 hname => ?_⟩
  rw [hname]
  exact ⟨AssocMap.insert_insert_same m i2.name i1 i2,
    AssocMap.find_insert (m.insert i2.name i1) i2.name i2⟩

/-- **C5 witness.** Parsing two `Instruction` elements both named `nop`
yields exactly the later element, and the double commit binds `nop` to the
later element's fields. -/
theorem c5_last_element_wins_witness :
    ([c5I2].map (fun i => i.name)).Nodup ∧
    AssocMap.insert (AssocMap.insert [] c5I1.name c5I1) c5I2.name c5I2 =
      AssocMap.insert [] c5I2.name c5I2 ∧
    AssocMap.find (AssocMap.insert (AssocMap.insert [] c5I1.name c5I1)
      c5I2.name c5I2) c5I1.name = some c5I2 ∧
    populate_instructions c5Events offlineEnv = .ok [c5I2] := by
  refine ⟨c5_last_element_wins.1 c5Events offlineEnv [c5I2] (by decide),
    (c5_last_element_wins.2.2.2 [] c5I1 c5I2 rfl).1,
    (c5_last_element_wins.2.2.2 [] c5I1 c5I2 rfl).2, by decide⟩

/-! ## Malformed enumerated and boolean attribute values -/

/-- **C7 counterexample.** A `Register` element whose `type` and `width`
attributes carry unrecognized tags is not a fatal error: `populate_registers`
returns `Ok` and commits the entry with the malformed values silently
dropped to `none`, refuting the claim for the register parser. -/
theorem c7_counterexample :
    RegisterType.from_str "Bogus Register" = .error "Unknown register type" ∧
    RegisterWidth.from_str "128 bit" = .error "Unknown register width" ∧
    populate_registers c7Events = .ok [c7Reg] ∧
    c7Reg.reg_type = none ∧ c7Reg.width = none := by
  decide

/-- **C7 (amended).** In `populate_instructions`, an unrecognized enumerated
or boolean attribute value is fatal: an unparseable `cancelling-inputs`
boolean, an unknown `mmx-mode` / `xmm-mode` tag, an unknown `Operand` type
or an unparseable operand `input` boolean make the event step return `Err`,
an unknown `ISA` id aborts the process, and such a step anywhere in the
stream makes the whole ingestion fail.  In `populate_registers`, however,
unknown register `type` / `width` tags are not fatal: the `Register` start
event always succeeds and stores `from_str`'s outcome demoted to an option
(`none` on a malformed tag). -/
theorem c7_malformed_values :
    (∀ (s : InstrState) (v : String), v ≠ "true" → v ≠ "false" →
      stepInstruction s (.start "InstructionForm" [("cancelling-inputs", v)]) =
        .error (.err ("Unknown value for XML attribute cancelling inputs: " ++ v))) ∧
    (∀ (s : InstrState) (v e : String), MMXMode.from_str v = .error e →
      stepInstruction s (.start "InstructionForm" [("mmx-mode", v)]) =
        .error (.err e)) ∧
    (∀ (s : InstrState) (v e : String), XMMMode.from_str v = .error e →
      stepInstruction s (.start "InstructionForm" [("xmm-mode", v)]) =
        .error (.err e)) ∧
    (∀ (s : InstrState) (v e : String), ISA.from_str v = .error e →
      stepInstruction s (.empty "ISA" [("id", v)]) =
        .error (.panic ("Unexpected ISA variant - " ++ v))) ∧
    (∀ (s : InstrState) (v e : String), OperandType.from_str v = .error e →
      stepInstruction s (.empty "Operand" [("type", v)]) =
        .error (.err ("Unknown value for operand type -- Variant: " ++ v))) ∧
    (∀ (s : InstrState) (v : String), v ≠ "true" → v ≠ "false" →
      stepInstruction s (.empty "Operand" [("input", v)]) =
        .error (.err "Unknown value for operand type")) ∧
    (∀ (pre post : List XmlEvent) (env : DocsEnv) (s : InstrState) (v : String),
      runInstrEvents pre {} = .ok s → v ≠ "true" → v ≠ "false" →
      populate_instructions
        (pre ++ (XmlEvent.start "InstructionForm" [("cancelling-inputs", v)]) :: post)
        env =
        .error (.err ("Unknown value for XML attribute cancelling inputs: " ++ v))) ∧
    (∀ (s : RegState) (n v w : String),
      stepRegister s (.start "Register" [("name", n), ("type", v), ("width", w)]) =
        .ok { s with curr_register :=
          { name := n, alt_names := [strUpper n, strLower n],
            reg_type := (RegisterType.from_str v).toOption,
            width := (RegisterWidth.from_str w).toOption, arch := s.arch } }) := by
  refine ⟨?_, ?_, ?_, ?_, ?_, ?_, ?_, ?_⟩
  · intro s v h1 h2
    simp [stepInstruction, applyInstructionFormAttr, h1, h2]
    rfl
  · intro s v e hv
    simp [stepInstruction, applyInstructionFormAttr, hv]
    rfl
  · intro s v e hv
    simp [stepInstruction, applyInstructionFormAttr, hv]
    rfl
  · intro s v e hv
    simp [stepInstruction, applyIsaAttr, hv]
    rfl
  · intro s v e hv
    simp [stepInstruction, applyOperandAttr, hv]
    rfl
  · intro s v h1 h2
    simp [stepInstruction, applyOperandAttr, h1, h2]
    rfl
  · intro pre post env s v hpre h1 h2
    have hbad : stepInstruction s
        (.start "InstructionForm" [("cancelling-inputs", v)]) =
        .error (.err ("Unknown value for XML attribute cancelling inputs: " ++ v)) := by
      simp [stepInstruction, applyInstructionFormAttr, h1, h2]
      rfl
    unfold populate_instructions
    have hrun : runInstrEvents
        (pre ++ (XmlEvent.start "InstructionForm" [("cancelling-inputs", v)]) :: post)
        {} = .error (.err ("Unknown value for XML attribute cancelling inputs: " ++ v)) := by
      unfold runInstrEvents
      rw [List.foldlM_append]
      rw [show List.foldlM stepInstruction ({} : InstrState) pre =
        runInstrEvents pre {} from rfl, hpre]
      show List.foldlM stepInstruction s _ = _
      rw [show List.foldlM stepInstruction s
        ((XmlEvent.start "InstructionForm" [("cancelling-inputs", v)]) :: post) =
        (stepInstruction s (XmlEvent.start "InstructionForm" [("cancelling-inputs", v)])
          >>= fun s1 => List.foldlM stepInstruction s1 post) from rfl, hbad]
      rfl
    rw [hrun]
    rfl
  · intro s n v w
    rfl

/-- **C7 witness.** Concrete malformed values: `cancelling-inputs="maybe"`
returns `Err`, `ISA id="BOGUS"` panics, and a whole stream containing the
malformed form attribute fails, while a register with an unknown type tag
steps successfully. -/
theorem c7_malformed_values_witness :
    stepInstruction {} (.start "InstructionForm" [("cancelling-inputs", "maybe")]) =
      .error (.err ("Unknown value for XML attribute cancelling inputs: " ++ "maybe")) ∧
    stepInstruction {} (.empty "ISA" [("id", "BOGUS")]) =
      .error (.panic ("Unexpected ISA variant - " ++ "BOGUS")) ∧
    populate_instructions
      ([XmlEvent.start "InstructionSet" [("name", "x86")]] ++
        (XmlEvent.start "InstructionForm" [("cancelling-inputs", "maybe")]) :: [])
      offlineEnv =
      .error (.err ("Unknown value for XML attribute cancelling inputs: " ++ "maybe")) ∧
    stepRegister {} (.start "Register" [("name", "r0"), ("type", "Bogus Register"),
        ("width", "128 bit")]) =
      .ok { ({} : RegState) with curr_register :=
        { name := "r0", alt_names := [strUpper "r0", strLower "r0"],
          reg_type := (RegisterType.from_str "Bogus Register").toOption,
          width := (RegisterWidth.from_str "128 bit").toOption,
          arch := ({} : RegState).arch } } := by
  refine ⟨c7_malformed_values.1 {} "maybe" (by decide) (by decide),
    c7_malformed_values.2.2.2.1 {} "BOGUS" "Unknown ISA" (by decide),
    c7_malformed_values.2.2.2.2.2.2.1
      [XmlEvent.start "InstructionSet" [("name", "x86")]] [] offlineEnv
      { arch := some Arch.x86 } "maybe" (by decide) (by decide) (by decide),
    c7_malformed_values.2.2.2.2.2.2.2 {} "r0" "Bogus Register" "128 bit"⟩

/-! ## The supplementary URL step -/

/-- **C4 counterexample.** The supplementary step can be fatal for a body
that *is* obtained: a fetched body with one table cell that does not match
the link regex makes `populate_instructions` panic
(`re.captures(line).unwrap()`), refuting "never fatal for every outcome of
fetching, including whatever body is obtained". -/
theorem c4_counterexample :
    (get_docs_body c4Env).body = some "<td>garbage</td>" ∧
    populate_instructions [XmlEvent.start "InstructionSet" [("name", "x86")]] c4Env =
      .error (.panic "called Option unwrap on a None value") := by
  decide

theorem applyInstructionAttr_url :
    ∀ (attrs : List (String × String)) (i : Instruction),
      (attrs.foldl applyInstructionAttr i).url = i.url := by
  intro attrs
  induction attrs with
  | nil => intro i; rfl
  | cons kv rest ih =>
    intro i
    rw [List.foldl_cons, ih]
    unfold applyInstructionAttr
    split_ifs <;> rfl

theorem stepInstruction_url (s : InstrState) (e : XmlEvent) (s2 : InstrState)
    (h : stepInstruction s e = .ok s2)
    (hs : (∀ p ∈ s.instructions_map, p.2.url = none) ∧
      s.curr_instruction.url = none) :
    (∀ p ∈ s2.instructions_map, p.2.url = none) ∧
      s2.curr_instruction.url = none := by
  unfold stepInstruction at h
  split at h
  all_goals try
    (obtain ⟨f, hf, h2⟩ := exceptBind_ok _ _ _ h
     injection h2 with h2
     subst h2
     exact hs)
  all_goals try
    (injection h with h
     subst h
     exact hs)
  all_goals injection h with h
  all_goals subst h
  all_goals first
  | (refine ⟨hs.1, ?_⟩
     rw [applyInstructionAttr_url])
  | (refine ⟨?_, hs.2⟩
     intro p hp
     rcases AssocMap.mem_insert _ _ _ p hp with rfl | hmem
     · exact hs.2
     · exact hs.1 p hmem)

theorem runInstr_url : ∀ (evs : List XmlEvent) (s s2 : InstrState),
    (∀ p ∈ s.instructions_map, p.2.url = none) → s.curr_instruction.url = none →
    runInstrEvents evs s = .ok s2 →
    ∀ p ∈ s2.instructions_map, p.2.url = none := by
  intro evs
  induction evs with
  | nil =>
    intro s s2 h1 _ h
    injection h with h; subst h; exact h1
  | cons e rest ih =>
    intro s s2 h1 h2 h
    obtain ⟨s1, hstep, hrest⟩ := exceptBind_ok _ _ _ (by
      rw [show runInstrEvents (e :: rest) s =
        (stepInstruction s e >>= fun s1 => runInstrEvents rest s1) from rfl] at h
      exact h)
    have hinv := stepInstruction_url s e s1 hstep ⟨h1, h2⟩
    exact ih s1 s2 hinv.1 hinv.2 hrest

/-- **C4 (amended).** The supplementary network-or-cache step is never fatal
*when no usable body is obtained*: cache-miss-and-network-failure yields no
body, and whenever `get_docs_body` yields no body, `populate_instructions`
still returns `Ok` with the parsed instructions and every returned
instruction has no URL attached.  (When a body with a non-matching table
cell is obtained, the step panics — see the counterexample.) -/
theorem c4_no_body_never_fatal :
    (∀ (env : DocsEnv) (e : String), env.web_fetch = .error e →
      env.cache_file_exists = false → (get_docs_body env).body = none) ∧
    (∀ (evs : List XmlEvent) (env : DocsEnv) (s : InstrState),
      runInstrEvents evs {} = .ok s → (get_docs_body env).body = none →
      populate_instructions evs env = .ok s.instructions_map.values ∧
      ∀ i ∈ s.instructions_map.values, i.url = none) := by
  constructor
  · intro env e hf hc
    unfold get_docs_body docsBodyRaw
    simp [hc, hf]
  · intro evs env s hrun hbody
    constructor
    · show (runInstrEvents evs {} >>= fun s => _) = _
      rw [hrun]
      show (match s.arch with
        | some Arch.x86 => _
        | some Arch.x86_64 => _
        | _ => Except.ok s.instructions_map.values) = Except.ok s.instructions_map.values
      cases harch : s.arch with
      | none => rfl
      | some a =>
        cases a with
        | x86 =>
          show (attachUrls s.instructions_map x86DocsUrl
            (tdCells ((get_docs_body env).body.getD "")) >>=
              fun m => Except.ok m.values) = _
          rw [hbody]
          rfl
        | x86_64 =>
          show (attachUrls s.instructions_map x86DocsUrl
            (tdCells ((get_docs_body env).body.getD "")) >>=
              fun m => Except.ok m.values) = _
          rw [hbody]
          rfl
        | z80 => rfl
    · intro i hi
      obtain ⟨p, hp, hpi⟩ := List.mem_map.mp hi
      rw [← hpi]
      exact runInstr_url evs {} s (fun p hp => absurd hp (List.not_mem_nil p))
        rfl hrun p hp

/-- **C4 witness.** With an offline environment (no cache, failing fetch) the
body is `none` and an x86 ingestion returns `Ok`. -/
theorem c4_no_body_never_fatal_witness :
    (get_docs_body offlineEnv).body = none ∧
    populate_instructions [XmlEvent.start "InstructionSet" [("name", "x86")]]
      offlineEnv =
      .ok (({ arch := some Arch.x86 } : InstrState).instructions_map.values) :=
  ⟨c4_no_body_never_fatal.1 offlineEnv "offline" rfl rfl,
   (c4_no_body_never_fatal.2 [XmlEvent.start "InstructionSet" [("name", "x86")]]
     offlineEnv { arch := some Arch.x86 } (by decide)
     (c4_no_body_never_fatal.1 offlineEnv "offline" rfl rfl)).1⟩

/-! ## Cache validation and resolution -/

/-- **C8.** When the body `get_docs_body` selected (from the cache or the
web) has a table-cell iterator yielding no element, the body is treated as
invalid: no body is returned, and when a cache path was resolved the cache
file's removal is attempted so the next run re-fetches; a body is returned
exactly when it yields at least one table cell. -/
theorem c8_invalid_body_invalidates_cache (env : DocsEnv) (b : String) (w : Bool)
    (hraw : docsBodyRaw env = (some b, w)) :
    ((tdCells b).isEmpty = true →
      (get_docs_body env).body = none ∧
      (env.cache_dir.isSome = true →
        (get_docs_body env).removed_cache_attempt = true)) ∧
    ((get_docs_body env).body = some b ↔ (tdCells b).isEmpty = false) := by
  unfold get_docs_body
  rw [hraw]
  dsimp only
  by_cases he : (tdCells b).isEmpty = true
  · rw [if_pos he]
    refine ⟨fun _ => ⟨rfl, fun hdir => ?_⟩, ?_⟩
    · show (docsCachePath env).isSome = true
      unfold docsCachePath
      cases hc : env.cache_dir with
      | none => rw [hc] at hdir; exact absurd hdir (by simp)
      | some d => rfl
    · constructor
      · intro hb; exact absurd hb (by simp)
      · intro hb; rw [he] at hb; exact absurd hb (by simp)
  · rw [if_neg he]
    exact ⟨fun h2 => absurd h2 he, by simp [he, Bool.not_eq_true _]⟩

/-- **C8 witness.** A fetched body with no table cell yields no body and an
attempted cache removal; a cached body with one cell is returned. -/
theorem c8_invalid_body_invalidates_cache_witness :
    (get_docs_body c8EnvInvalid).body = none ∧
    (get_docs_body c8EnvInvalid).removed_cache_attempt = true ∧
    (get_docs_body c8EnvValid).body = some "<td>a</td>" := by
  have h1 := (c8_invalid_body_invalidates_cache c8EnvInvalid "no cells here" true
    (by decide)).1 (by decide)
  have h2 := (c8_invalid_body_invalidates_cache c8EnvValid "<td>a</td>" false
    (by decide)).2.mpr (by decide)
  exact ⟨h1.1, h1.2 (by decide), h2⟩

/-- **C9 counterexample.** `get_cache_dir` returns an error although a home
directory was found: with no usable override, a present home directory and a
failing `create_dir_all`, the function propagates the creation error,
refuting "it returns an error only when the environment override is unusable
and no home directory can be found". -/
theorem c9_counterexample :
    c9Env.env_var = none ∧ c9Env.home = some "/home/u" ∧
    get_cache_dir c9Env = .error "failed to create the cache directory" := by
  exact ⟨rfl, rfl, rfl⟩

/-- **C9 (amended).** `get_cache_dir` honors `ASM_LSP_CACHE_DIR` only when
its value names an existing directory; for a set-but-invalid value it
silently falls back to `<home>/.cache/asm-lsp` (created if needed); the
fallback errors when no home directory is found, succeeds when the directory
can be created — and also errors when the home directory is present but
creating the default cache directory fails. -/
theorem c9_cache_dir (env : CacheEnv) :
    (∀ p, env.env_var = some p → env.is_dir p = true →
      get_cache_dir env = .ok p) ∧
    (∀ p, env.env_var = some p → env.is_dir p = false →
      get_cache_dir env = cacheFallback env) ∧
    (env.env_var = none → get_cache_dir env = cacheFallback env) ∧
    (env.home = none → cacheFallback env = .error "Home directory not found") ∧
    (∀ hme, env.home = some hme → env.create_dir_ok = true →
      cacheFallback env = .ok (hme ++ "/.cache/asm-lsp")) ∧
    (∀ hme, env.home = some hme → env.create_dir_ok = false →
      cacheFallback env = .error "failed to create the cache directory") := by
  refine ⟨?_, ?_, ?_, ?_, ?_, ?_⟩
  · intro p hp hd
    unfold get_cache_dir
    rw [hp]
    dsimp only
    rw [hd]
    rfl
  · intro p hp hd
    unfold get_cache_dir
    rw [hp]
    dsimp only
    rw [hd]
    rfl
  · intro hp
    unfold get_cache_dir
    rw [hp]
  · intro hh
    unfold cacheFallback
    rw [hh]
  · intro hme hh hc
    unfold cacheFallback
    rw [hh, hc]
    rfl
  · intro hme hh hc
    unfold cacheFallback
    rw [hh, hc]
    rfl

/-- **C9 witness.** A valid override is returned as-is; with no override the
home-based default is built and returned. -/
theorem c9_cache_dir_witness :
    get_cache_dir c9EnvOk = .ok "/tmp/asm-cache" ∧
    get_cache_dir { c9EnvOk with env_var := none } =
      .ok ("/home/u" ++ "/.cache/asm-lsp") := by
  refine ⟨(c9_cache_dir c9EnvOk).1 "/tmp/asm-cache" rfl rfl, ?_⟩
  rw [(c9_cache_dir { c9EnvOk with env_var := none }).2.2.1 rfl]
  exact (c9_cache_dir { c9EnvOk with env_var := none }).2.2.2.2.1 "/home/u" rfl rfl

end AsmLsp
